import Mathlib

/-!
Shallow embedding of the ChronoClashV2 backend session coordinator.

The JavaScript source keeps three `Map`s inside `GameStateManager`
(`rooms`, `players`, `playerToRoom`).  We embed each `Map` as an
association list with string keys; `aget`, `aset` and `adel` mirror
`Map.get`, `Map.set` and `Map.delete`.  `Date.now()` is passed in
explicitly as a `now : Nat` argument to every operation.  JavaScript
numbers used for health / mana / damage are embedded as `Int` (the code
clamps them with `Math.max(0, _)`); timestamps and counters are `Nat`.
-/

/-- First-match lookup, mirroring `Map.get` (returns `undefined` ↦ `none`). -/
def aget {α : Type} (m : List (String × α)) (k : String) : Option α :=
  match m with
  | [] => none
  | e :: rest => if e.1 = k then some e.2 else aget rest k

/-- Deletes every entry with key `k`, mirroring `Map.delete`. -/
def adel {α : Type} (m : List (String × α)) (k : String) : List (String × α) :=
  match m with
  | [] => []
  | e :: rest => if e.1 = k then adel rest k else e :: adel rest k

/-- Key update, mirroring `Map.set`.  (Entry order is not observable through
`aget`, so replacing the binding at the front is an adequate embedding.) -/
def aset {α : Type} (m : List (String × α)) (k : String) (v : α) : List (String × α) :=
  (k, v) :: adel m k

theorem aget_aset_self {α : Type} (m : List (String × α)) (k : String) (v : α) :
    aget (aset m k v) k = some v := by
  simp [aset, aget]

theorem aget_adel_self {α : Type} (m : List (String × α)) (k : String) :
    aget (adel m k) k = none := by
  induction m with
  | nil => simp [adel, aget]
  | cons e rest ih =>
    by_cases h : e.1 = k
    · simpa [adel, h] using ih
    · simp [adel, aget, h, ih]

theorem aget_adel_ne {α : Type} (m : List (String × α)) (k k' : String) (h : k' ≠ k) :
    aget (adel m k) k' = aget m k' := by
  induction m with
  | nil => simp [adel]
  | cons e rest ih =>
    have hk : k ≠ k' := fun hc => h hc.symm
    by_cases he : e.1 = k
    · have : e.1 ≠ k' := by rw [he]; exact hk
      simp [adel, aget, he, this, ih, hk]
    · by_cases he' : e.1 = k'
      · simp [adel, aget, he, he', h]
      · simp [adel, aget, he, he', ih]

theorem aget_aset_ne {α : Type} (m : List (String × α)) (k k' : String) (v : α) (h : k' ≠ k) :
    aget (aset m k v) k' = aget m k' := by
  have : k ≠ k' := fun hc => h hc.symm
  simp [aset, aget, this, aget_adel_ne m k k' h]

/-- `aget m k = none` exactly when no entry carries the key. -/
theorem aget_eq_none_iff {α : Type} (m : List (String × α)) (k : String) :
    aget m k = none ↔ ∀ e ∈ m, e.1 ≠ k := by
  induction m with
  | nil => simp [aget]
  | cons e rest ih =>
    by_cases h : e.1 = k
    · simp [aget, h]
    · simp [aget, h, ih]

/-- JS `String.prototype.substring(0, n)`, as a kernel-reducible list
operation (`String.take` itself does not reduce inside `decide`). -/
def jsTake (s : String) (n : Nat) : String := String.mk (s.data.take n)

/-- JS `String.prototype.trim()`: strip leading and trailing whitespace. -/
def jsTrim (s : String) : String :=
  String.mk (((s.data.dropWhile (fun c => c.isWhitespace)).reverse.dropWhile
    (fun c => c.isWhitespace)).reverse)

/-! ## Data model -/

/-- An ability, consumed as opaque catalog data (`{id, name, manaCost, damage}`). -/
structure Ability where
  id : String
  name : String
  manaCost : Int
  damage : Int
deriving DecidableEq, Repr

/-- Character data as consumed by `setPlayerCharacter` / `processAbilityUse`. -/
structure Character where
  id : String
  name : String
  health : Int
  mana : Int
  abilities : List Ability
deriving DecidableEq, Repr

/-- Player record created by `registerPlayer`. -/
structure Player where
  id : String
  name : String
  isConnected : Bool
  character : Option Character
  isReady : Bool
  health : Int
  maxHealth : Int
  mana : Int
  maxMana : Int
  lastActive : Nat
deriving DecidableEq, Repr

/-- Room status string: `waiting | ready | in-progress | completed`. -/
inductive RoomStatus where
  | waiting
  | ready
  | inProgress
  | completed
deriving DecidableEq, Repr

/-- The embedded `room.gameData` object. -/
structure GameData where
  turnCount : Nat
  currentTurn : Option String
  battleLog : List String
  startTime : Option Nat
  endTime : Option Nat
  winner : Option String
deriving DecidableEq, Repr

/-- A room record as created by `createRoom`. -/
structure Room where
  id : String
  name : String
  hostId : String
  guestId : Option String
  status : RoomStatus
  isPrivate : Bool
  maxPlayers : Nat
  players : List String
  spectators : List String
  gameData : GameData
  createdAt : Nat
  lastActivity : Nat
deriving DecidableEq, Repr

/-- The three `Map`s held by `GameStateManager`. -/
structure GameState where
  rooms : List (String × Room)
  players : List (String × Player)
  playerToRoom : List (String × String)
deriving DecidableEq, Repr

def emptyState : GameState := ⟨[], [], []⟩

/-! ## Player registry operations -/

/-- `registerPlayer(socketId, playerData)`.  `playerData.name || fallback`
treats the empty string as falsy. -/
def registerPlayer (st : GameState) (now : Nat) (socketId : String)
    (pname : Option String) : GameState × Player :=
  let fallback := "Player_" ++ jsTake socketId 5
  let nm := match pname with
    | some n => if n = "" then fallback else n
    | none => fallback
  let p : Player :=
    { id := socketId, name := nm, isConnected := true, character := none,
      isReady := false, health := 0, maxHealth := 0, mana := 0, maxMana := 0,
      lastActive := now }
  ({ st with players := aset st.players socketId p }, p)

/-- `updatePlayer(socketId, updates)`: merges the update and refreshes
`lastActive`; returns `none` when the player is unknown.  The concrete
`updates` object of each call site is passed as the merge function `f`. -/
def updatePlayerWith (st : GameState) (now : Nat) (socketId : String)
    (f : Player → Player) : GameState × Option Player :=
  match aget st.players socketId with
  | none => (st, none)
  | some p =>
    let p2 := { f p with lastActive := now }
    ({ st with players := aset st.players socketId p2 }, some p2)

/-! ## Room registry operations -/

/-- Result of `removePlayerFromRoom` / `leaveAllRooms`:
`{success:false,error}` / `{success:true,roomClosed:true}` /
`{success:true,room}` / `{success:true,noRoomFound:true}`. -/
inductive RemoveResult where
  | failure (error : String)
  | okClosed
  | okRoom (room : Room)
  | okNoRoom
deriving DecidableEq, Repr

/-- Tail of `removePlayerFromRoom` after the host-departure branch: clear the
guest slot if the leaver was the guest, end an in-progress match
(forfeit-on-departure), refresh `lastActivity` and store the room. -/
def removeFinish (st : GameState) (now : Nat) (socketId roomId : String)
    (room : Room) : GameState × RemoveResult :=
  let room1 := if room.guestId = some socketId then { room with guestId := none } else room
  let room2 :=
    if room1.status = RoomStatus.inProgress then
      { room1 with status := RoomStatus.completed,
                   gameData := { room1.gameData with
                                   endTime := some now,
                                   winner := room1.players.head? } }
    else room1
  let room3 := { room2 with lastActivity := now }
  ({ st with rooms := aset st.rooms roomId room3 }, RemoveResult.okRoom room3)

/-- `removePlayerFromRoom(socketId, roomId)`. -/
def removePlayerFromRoom (st : GameState) (now : Nat) (socketId roomId : String) :
    GameState × RemoveResult :=
  match aget st.rooms roomId with
  | none => (st, RemoveResult.failure "Room not found")
  | some room0 =>
    let room1 := { room0 with players := room0.players.filter (fun id => id != socketId) }
    let st1 := { st with playerToRoom := adel st.playerToRoom socketId }
    if socketId = room1.hostId then
      match room1.players with
      | [] => ({ st1 with rooms := adel st1.rooms roomId }, RemoveResult.okClosed)
      | newHost :: _ =>
        let room2 := { room1 with hostId := newHost }
        let room3 :=
          if room2.guestId = some room2.hostId then { room2 with guestId := none } else room2
        removeFinish st1 now socketId roomId room3
    else
      removeFinish st1 now socketId roomId room1

/-- `leaveAllRooms(socketId)`. -/
def leaveAllRooms (st : GameState) (now : Nat) (socketId : String) :
    GameState × RemoveResult :=
  match aget st.playerToRoom socketId with
  | some roomId => removePlayerFromRoom st now socketId roomId
  | none => (st, RemoveResult.okNoRoom)

/-- `unregisterPlayer(socketId)`. -/
def unregisterPlayer (st : GameState) (now : Nat) (socketId : String) : GameState :=
  let st1 :=
    match aget st.playerToRoom socketId with
    | some roomId => (removePlayerFromRoom st now socketId roomId).1
    | none => st
  { st1 with players := adel st1.players socketId,
             playerToRoom := adel st1.playerToRoom socketId }

/-- `createRoom`'s `roomData` argument (`{roomId?, name?, isPrivate?}`). -/
structure RoomData where
  roomId : Option String
  name : Option String
  isPrivate : Bool
deriving DecidableEq, Repr

/-- `createRoom(hostId, roomData)`.  `generateRoomCode()` draws a random
6-character code until it misses every live room; the drawn code is passed
in as `genCode` (its do-while contract, `genCode` fresh, is a hypothesis
where proofs need it).  `roomData.roomId || generated` treats `""` as falsy.
Returns the room, or `none` when the host is not a registered player
(note the JS runs `leaveAllRooms` before that check). -/
def createRoom (st : GameState) (now : Nat) (hostId : String)
    (rdata : RoomData) (genCode : String) : GameState × Option Room :=
  let roomId := match rdata.roomId with
    | some r => if r = "" then genCode else r
    | none => genCode
  let st1 := (leaveAllRooms st now hostId).1
  match aget st1.players hostId with
  | none => (st1, none)
  | some host =>
    let fallback := host.name ++ "\x27s Room"
    let nm := match rdata.name with
      | some n => if n = "" then fallback else n
      | none => fallback
    let room : Room :=
      { id := roomId, name := nm, hostId := hostId, guestId := none,
        status := RoomStatus.waiting, isPrivate := rdata.isPrivate,
        maxPlayers := 2, players := [hostId], spectators := [],
        gameData := { turnCount := 0, currentTurn := none, battleLog := [],
                      startTime := none, endTime := none, winner := none },
        createdAt := now, lastActivity := now }
    ({ st1 with rooms := aset st1.rooms roomId room,
                playerToRoom := aset st1.playerToRoom hostId roomId },
     some room)

/-- Result of `addPlayerToRoom`: `{success:false,error}` or `{success:true,room}`. -/
inductive JoinResult where
  | failure (error : String)
  | ok (room : Room)
deriving DecidableEq, Repr

/-- `addPlayerToRoom(socketId, roomId)`.  The JS captures the room object
before `leaveAllRooms(socketId)` runs; when that call empties and deletes
this very room (the player was its sole occupant), the subsequent
`players.push` / `guestId` / `lastActivity` writes mutate a detached object
that is no longer in the `rooms` map — the embedding reproduces that by
re-reading the map and keeping the detached value out of `rooms`. -/
def addPlayerToRoom (st : GameState) (now : Nat) (socketId roomId : String) :
    GameState × JoinResult :=
  match aget st.rooms roomId with
  | none => (st, JoinResult.failure "Room not found")
  | some room =>
    match aget st.players socketId with
    | none => (st, JoinResult.failure "Player not found")
    | some _ =>
      if room.players.length ≥ room.maxPlayers then
        (st, JoinResult.failure "Room is full")
      else if room.status ≠ RoomStatus.waiting then
        (st, JoinResult.failure "Room is not accepting new players")
      else
        let st1 := (leaveAllRooms st now socketId).1
        let detached := aget st1.rooms roomId = none
        let roomCur := match aget st1.rooms roomId with
          | some r2 => r2
          | none => { room with players := room.players.filter (fun id => id != socketId) }
        let roomA := { roomCur with players := roomCur.players ++ [socketId] }
        let roomB := if roomA.players.length = 2 then { roomA with guestId := some socketId } else roomA
        let roomC := { roomB with lastActivity := now }
        let rooms2 := if detached then st1.rooms else aset st1.rooms roomId roomC
        ({ st1 with rooms := rooms2,
                    playerToRoom := aset st1.playerToRoom socketId roomId },
         JoinResult.ok roomC)

/-- Result of `setPlayerCharacter`. -/
inductive CharResult where
  | failure (error : String)
  | ok (player : Player) (room : Room)
deriving DecidableEq, Repr

/-- `setPlayerCharacter(socketId, character)`.  Note the JS mutates the
player record (via `updatePlayer`) before the not-in-a-room checks. -/
def setPlayerCharacter (st : GameState) (now : Nat) (socketId : String)
    (character : Character) : GameState × CharResult :=
  let up := updatePlayerWith st now socketId (fun p =>
    { p with character := some character, health := character.health,
             maxHealth := character.health, mana := character.mana,
             maxMana := character.mana, isReady := false })
  match up.2 with
  | none => (up.1, CharResult.failure "Player not found")
  | some player =>
    match aget up.1.playerToRoom socketId with
    | none => (up.1, CharResult.failure "Player not in a room")
    | some roomId =>
      match aget up.1.rooms roomId with
      | none => (up.1, CharResult.failure "Room not found")
      | some room =>
        let room2 := { room with lastActivity := now }
        ({ up.1 with rooms := aset up.1.rooms roomId room2 },
         CharResult.ok player room2)

/-- Result of `setPlayerReady`. -/
inductive ReadyResult where
  | failure (error : String)
  | ok (player : Player) (room : Room) (allReady : Bool)
deriving DecidableEq, Repr

/-- `setPlayerReady(socketId, isReady)`.  The all-ready scan does
`players.get(id).isReady` per roster member; a roster member missing from
the players map would make the JS fault, the embedding reads such a member
as not ready (the difference is invisible to the claims proved below). -/
def setPlayerReady (st : GameState) (now : Nat) (socketId : String)
    (isReady : Bool) : GameState × ReadyResult :=
  let up := updatePlayerWith st now socketId (fun p => { p with isReady := isReady })
  match up.2 with
  | none => (up.1, ReadyResult.failure "Player not found")
  | some player =>
    match aget up.1.playerToRoom socketId with
    | none => (up.1, ReadyResult.failure "Player not in a room")
    | some roomId =>
      match aget up.1.rooms roomId with
      | none => (up.1, ReadyResult.failure "Room not found")
      | some room =>
        let allReady := room.players.length = 2 ∧
          ∀ pid ∈ room.players,
            (match aget up.1.players pid with
             | some q => q.isReady
             | none => false) = true
        let room2 :=
          if allReady ∧ room.status = RoomStatus.waiting then
            { room with status := RoomStatus.ready }
          else room
        let room3 := { room2 with lastActivity := now }
        ({ up.1 with rooms := aset up.1.rooms roomId room3 },
         ReadyResult.ok player room3 (decide (room.players.length = 2) &&
           room.players.all (fun pid =>
             match aget up.1.players pid with
             | some q => q.isReady
             | none => false)))

/-- Result of `startGame`. -/
inductive StartResult where
  | failure (error : String)
  | ok (room : Room)
deriving DecidableEq, Repr

/-- `startGame(roomId)`. -/
def startGame (st : GameState) (now : Nat) (roomId : String) :
    GameState × StartResult :=
  match aget st.rooms roomId with
  | none => (st, StartResult.failure "Room not found")
  | some room =>
    if room.status ≠ RoomStatus.ready then
      (st, StartResult.failure "Not all players are ready")
    else if room.players.length ≠ 2 then
      (st, StartResult.failure "Need exactly 2 players to start")
    else
      let hostName := match aget st.players room.hostId with
        | some p => p.name
        | none => "?"
      let room2 :=
        { room with status := RoomStatus.inProgress,
                    gameData := { turnCount := 1,
                                  currentTurn := some room.hostId,
                                  battleLog := ["Battle started!",
                                                hostName ++ " goes first!"],
                                  startTime := some now, endTime := none,
                                  winner := none },
                    lastActivity := now }
      ({ st with rooms := aset st.rooms roomId room2 }, StartResult.ok room2)

/-! ## Match engine -/

/-- A `game_action` payload: `action.type` with its data. -/
inductive GAction where
  | ability (abilityId : String)
  | surrender
  | unknown (t : String)
deriving DecidableEq, Repr

/-- Outcome of `processAbilityUse` (its returned object, minus the player
and room references which the embedding returns alongside). -/
inductive AbilityOutcome where
  | failure (error : String)
  | ok (ability : Ability) (damage : Int)
deriving DecidableEq, Repr

/-- `processAbilityUse(actingPlayer, targetPlayer, action, room)`; the JS
mutates the two player objects and the room's battle log in place, so the
embedding returns their updated values. -/
def processAbilityUse (acting target : Player) (abilityId : String)
    (room : Room) : Player × Player × Room × AbilityOutcome :=
  match acting.character.bind (fun c => c.abilities.find? (fun a => a.id == abilityId)) with
  | none => (acting, target, room, AbilityOutcome.failure "Ability not found")
  | some ability =>
    if acting.mana < ability.manaCost then
      (acting, target, room, AbilityOutcome.failure "Not enough mana")
    else
      let acting2 := { acting with mana := max 0 (acting.mana - ability.manaCost) }
      let damage := ability.damage
      let target2 := { target with health := max 0 (target.health - damage) }
      let room2 :=
        { room with gameData := { room.gameData with battleLog :=
            room.gameData.battleLog ++
              [acting.name ++ " used " ++ ability.name ++ "!",
               target.name ++ " took " ++ toString damage ++ " damage!"] } }
      (acting2, target2, room2, AbilityOutcome.ok ability damage)

/-- `processSurrender(actingPlayer, targetPlayer, room)`. -/
def processSurrender (acting target : Player) (room : Room) :
    Player × Player × Room :=
  ({ acting with health := 0 }, target,
   { room with gameData := { room.gameData with battleLog :=
       room.gameData.battleLog ++ [acting.name ++ " surrendered!"] } })

/-- The object `processGameAction` hands back to the controller.  Because the
JS builds it as `{ success: true, ...result, room }`, an inner failure from
`processAbilityUse` overrides the `success: true` — yet the turn-advance
code has already run by then. -/
structure ActionPayload where
  success : Bool
  error : Option String
  damage : Option Int
  surrender : Bool
  gameOver : Bool
  winner : Option String
deriving DecidableEq, Repr

def actionFail (e : String) : ActionPayload :=
  { success := false, error := some e, damage := none, surrender := false,
    gameOver := false, winner := none }

/-- `processGameAction(socketId, action)`. -/
def processGameAction (st : GameState) (now : Nat) (socketId : String)
    (action : GAction) : GameState × ActionPayload :=
  match aget st.playerToRoom socketId with
  | none => (st, actionFail "Player not in a room")
  | some roomId =>
  match aget st.rooms roomId with
  | none => (st, actionFail "Room not found")
  | some room =>
  if room.status ≠ RoomStatus.inProgress then
    (st, actionFail "Game is not in progress")
  else if room.gameData.currentTurn ≠ some socketId then
    (st, actionFail "Not your turn")
  else
    match if socketId = room.hostId then room.guestId else some room.hostId with
    | none => (st, actionFail "Player data missing")
    | some targetId =>
    match aget st.players socketId, aget st.players targetId with
    | some acting, some target =>
      let dispatched : Option (Player × Player × Room × Bool × Option String × Option Int × Bool) :=
        match action with
        | GAction.ability aid =>
          let r := processAbilityUse acting target aid room
          match r.2.2.2 with
          | AbilityOutcome.failure e => some (r.1, r.2.1, r.2.2.1, false, some e, none, false)
          | AbilityOutcome.ok _ dmg => some (r.1, r.2.1, r.2.2.1, true, none, some dmg, false)
        | GAction.surrender =>
          let r := processSurrender acting target room
          some (r.1, r.2.1, r.2.2, true, none, none, true)
        | GAction.unknown _ => none
      match dispatched with
      | none => (st, actionFail "Unknown action type")
      | some (acting2, target2, room2, innerOk, innerErr, dmg, surr) =>
        let players2 := aset (aset st.players socketId acting2) targetId target2
        if acting2.health ≤ 0 ∨ target2.health ≤ 0 then
          let winner := if acting2.health ≤ 0 then target2.id else acting2.id
          let winnerName := match aget players2 winner with
            | some q => q.name
            | none => "?"
          let room3 :=
            { room2 with status := RoomStatus.completed,
                         gameData := { room2.gameData with
                             endTime := some now, winner := some winner,
                             battleLog := room2.gameData.battleLog ++
                               [winnerName ++ " wins the battle!"] } }
          let room4 := { room3 with lastActivity := now }
          ({ st with rooms := aset st.rooms roomId room4, players := players2 },
           { success := innerOk, error := innerErr, damage := dmg,
             surrender := surr, gameOver := true, winner := some winner })
        else
          let newTurn := if room2.gameData.currentTurn = some room2.hostId
            then room2.guestId else some room2.hostId
          let nextName := match newTurn.bind (fun t => aget players2 t) with
            | some q => q.name
            | none => "?"
          let room3 :=
            { room2 with gameData := { room2.gameData with
                             currentTurn := newTurn,
                             turnCount := room2.gameData.turnCount + 1,
                             battleLog := room2.gameData.battleLog ++
                               [nextName ++ "\x27s turn!"] } }
          let room4 := { room3 with lastActivity := now }
          ({ st with rooms := aset st.rooms roomId room4, players := players2 },
           { success := innerOk, error := innerErr, damage := dmg,
             surrender := surr, gameOver := false, winner := none })
    | _, _ => (st, actionFail "Player data missing")

/-! ## Reaper -/

/-- `cleanupInactive(roomTimeout, playerTimeout)`: first the room sweep
(also clearing every evicted occupant's reverse-index entry), then the
player sweep, which consults the already-updated index.  JS computes
`now - t > timeout` with signed arithmetic; for `t > now` that difference
is negative, never `> timeout`, matching `Nat` truncated subtraction. -/
def cleanupInactive (st : GameState) (now roomTimeout playerTimeout : Nat) :
    GameState :=
  let evicted := st.rooms.filter (fun e => now - e.2.lastActivity > roomTimeout)
  let rooms2 := st.rooms.filter (fun e => ¬ now - e.2.lastActivity > roomTimeout)
  let idx2 := evicted.foldl (fun idx e =>
    e.2.players.foldl (fun idx2 pid => adel idx2 pid) idx) st.playerToRoom
  let players2 := st.players.filter (fun e =>
    ¬ (now - e.2.lastActive > playerTimeout ∧ aget idx2 e.1 = none))
  { rooms := rooms2, players := players2, playerToRoom := idx2 }

/-! ## Chat controller (`gameController.js`) -/

/-- A JavaScript value arriving in `data.message` over the socket. -/
inductive JsVal where
  | jstr (s : String)
  | jnum (n : Int)
  | jbool (b : Bool)
  | jnull
deriving DecidableEq, Repr

/-- `chat_message` event data (`data.roomId`, `data.message`); `none`
models an absent / `undefined` field. -/
structure ChatData where
  roomId : Option String
  message : Option JsVal
deriving DecidableEq, Repr

/-- What a call to `handleChatMessage` does. -/
inductive ChatOutcome where
  | ignored
  | fault (msg : String)
  | broadcast (roomId : Option String) (playerId playerName : String) (text : String)
deriving DecidableEq, Repr

/-- The module scope of `gameController.js` contains no binding for the
identifier `gameState`: every other handler receives it as a parameter,
but `handleChatMessage(socket, data, io)` does not, and the `gameState`
local of the server entry module is not in scope there.  Reading it
raises a `ReferenceError`.  Modelled as `none`. -/
def gameControllerGameStateBinding : Option GameState := none

/-- `handleChatMessage(socket, data, io)`.  The validation guard
(`!data.message || typeof !== 'string' || trim === ''`) returns silently;
any message that survives it reaches the unbound `gameState` identifier. -/
def handleChatMessage (senderId : String) (data : ChatData) : ChatOutcome :=
  match data.message with
  | none => ChatOutcome.ignored
  | some (JsVal.jnum _) => ChatOutcome.ignored
  | some (JsVal.jbool _) => ChatOutcome.ignored
  | some JsVal.jnull => ChatOutcome.ignored
  | some (JsVal.jstr s) =>
    if s = "" then ChatOutcome.ignored
    else if jsTrim s = "" then ChatOutcome.ignored
    else
      match gameControllerGameStateBinding with
      | none => ChatOutcome.fault "gameState is not defined"
      | some gs =>
        match aget gs.players senderId with
        | none => ChatOutcome.ignored
        | some p =>
          ChatOutcome.broadcast data.roomId senderId p.name (jsTake (jsTrim s) 500)

/-! ## Operation language

Every public mutating entry point of `GameStateManager`, with its
arguments; `Date.now()` is the explicit `now` of each constructor, and
`createRoom`'s random code generator is the explicit `genCode` oracle. -/

inductive Op where
  | register (now : Nat) (id : String) (pname : Option String)
  | unregister (now : Nat) (id : String)
  | create (now : Nat) (hostId : String) (rdata : RoomData) (genCode : String)
  | add (now : Nat) (pid rid : String)
  | remove (now : Nat) (pid rid : String)
  | leaveAll (now : Nat) (pid : String)
  | setChar (now : Nat) (pid : String) (c : Character)
  | setReady (now : Nat) (pid : String) (b : Bool)
  | start (now : Nat) (rid : String)
  | act (now : Nat) (pid : String) (a : GAction)
  | cleanup (now : Nat) (rT pT : Nat)
deriving DecidableEq, Repr

def Op.exec (st : GameState) : Op → GameState
  | Op.register now id pname => (registerPlayer st now id pname).1
  | Op.unregister now id => unregisterPlayer st now id
  | Op.create now hostId rdata genCode => (createRoom st now hostId rdata genCode).1
  | Op.add now pid rid => (addPlayerToRoom st now pid rid).1
  | Op.remove now pid rid => (removePlayerFromRoom st now pid rid).1
  | Op.leaveAll now pid => (leaveAllRooms st now pid).1
  | Op.setChar now pid c => (setPlayerCharacter st now pid c).1
  | Op.setReady now pid b => (setPlayerReady st now pid b).1
  | Op.start now rid => (startGame st now rid).1
  | Op.act now pid a => (processGameAction st now pid a).1
  | Op.cleanup now rT pT => cleanupInactive st now rT pT

def execList (st : GameState) (ops : List Op) : GameState :=
  ops.foldl Op.exec st

/-- The effective room code a `create` op will use. -/
def Op.createCode (rdata : RoomData) (genCode : String) : String :=
  match rdata.roomId with
  | some r => if r = "" then genCode else r
  | none => genCode

/-- The `generateRoomCode` do-while contract plus the no-collision proviso
for caller-supplied codes: the effective code of a `create` does not name
a live room. -/
def CreateFresh (st : GameState) : Op → Prop
  | Op.create _ _ rdata genCode => aget st.rooms (Op.createCode rdata genCode) = none
  | _ => True

/-- Call discipline under which the reverse index stays consistent:
`create` codes are fresh, `remove` targets the caller's indexed room (or a
player in no room), and `add` is not a re-entry into the player's current
room. -/
def Disciplined (st : GameState) : Op → Prop
  | Op.create now h rdata genCode => CreateFresh st (Op.create now h rdata genCode)
  | Op.remove _ pid rid =>
      aget st.playerToRoom pid = some rid ∨ aget st.playerToRoom pid = none
  | Op.add _ pid rid => aget st.playerToRoom pid ≠ some rid
  | _ => True

instance (st : GameState) (op : Op) : Decidable (CreateFresh st op) := by
  cases op <;> simp [CreateFresh] <;> infer_instance

instance (st : GameState) (op : Op) : Decidable (Disciplined st op) := by
  cases op <;> simp [Disciplined, CreateFresh] <;> infer_instance

/-- A run whose every step satisfies `CreateFresh` in the state it runs in. -/
def FreshSeq : GameState → List Op → Prop
  | _, [] => True
  | st, op :: rest => CreateFresh st op ∧ FreshSeq (Op.exec st op) rest

/-- A run whose every step satisfies the full call discipline. -/
def DisciplinedSeq : GameState → List Op → Prop
  | _, [] => True
  | st, op :: rest => Disciplined st op ∧ DisciplinedSeq (Op.exec st op) rest

instance : ∀ (st : GameState) (ops : List Op), Decidable (FreshSeq st ops)
  | _, [] => by simp [FreshSeq]; infer_instance
  | st, op :: rest =>
    have : Decidable (FreshSeq (Op.exec st op) rest) := instDecidableFreshSeq _ _
    by simp [FreshSeq]; infer_instance

instance instDecidableDisciplinedSeq :
    ∀ (st : GameState) (ops : List Op), Decidable (DisciplinedSeq st ops)
  | _, [] => by simp [DisciplinedSeq]; infer_instance
  | st, op :: rest =>
    have : Decidable (DisciplinedSeq (Op.exec st op) rest) :=
      instDecidableDisciplinedSeq _ _
    by simp [DisciplinedSeq]; infer_instance

/-! ## Invariants -/

/-- Roster shape invariant of a single live room (spec §3, §8): the roster
holds one or two distinct occupants, `hostId` is `roster[0]`, and `guestId`
is set exactly when the roster has two occupants, naming the non-host. -/
def RoomInv (room : Room) : Prop :=
  room.maxPlayers = 2 ∧
  ((∃ h, room.players = [h] ∧ room.hostId = h ∧ room.guestId = none) ∨
   (∃ h g, room.players = [h, g] ∧ room.hostId = h ∧ room.guestId = some g ∧ h ≠ g))

/-- Every room in the registry satisfies `RoomInv`. -/
def RoomsInv (st : GameState) : Prop :=
  ∀ r room, aget st.rooms r = some room → RoomInv room

/-- Reverse-index consistency (spec §3): `playerToRoom` maps `p` to `r`
iff a room with code `r` is live and `p` is on its roster. -/
def IndexConsistent (st : GameState) : Prop :=
  ∀ p r, aget st.playerToRoom p = some r ↔
    ∃ room, aget st.rooms r = some room ∧ p ∈ room.players

def nodupKeys {α : Type} (m : List (String × α)) : Prop :=
  (m.map Prod.fst).Nodup

def NodupState (st : GameState) : Prop :=
  nodupKeys st.rooms ∧ nodupKeys st.players ∧ nodupKeys st.playerToRoom

instance {α : Type} (m : List (String × α)) : Decidable (nodupKeys m) := by
  unfold nodupKeys
  infer_instance

instance (st : GameState) : Decidable (NodupState st) := by
  unfold NodupState
  infer_instance

/-- The combined registry invariant carried through disciplined runs. -/
def RegistryInv (st : GameState) : Prop :=
  IndexConsistent st ∧ RoomsInv st ∧ NodupState st

theorem inv_empty : RegistryInv emptyState := by
  refine ⟨?_, ?_, ?_, ?_, ?_⟩ <;>
    simp [IndexConsistent, RoomsInv, NodupState, nodupKeys, emptyState, aget]

/-! ## Map and list helper lemmas -/

theorem adel_eq_filter {α : Type} (m : List (String × α)) (k : String) :
    adel m k = m.filter (fun e => e.1 != k) := by
  induction m with
  | nil => simp [adel]
  | cons e rest ih =>
    by_cases h : e.1 = k <;> simp [adel, h, ih]

theorem mem_adel {α : Type} {m : List (String × α)} {k : String} {e : String × α} :
    e ∈ adel m k → e ∈ m ∧ e.1 ≠ k := by
  rw [adel_eq_filter]
  intro h
  have := List.mem_filter.mp h
  exact ⟨this.1, by simpa using this.2⟩

theorem nodupKeys_filter {α : Type} {m : List (String × α)} (f : String × α → Bool)
    (h : nodupKeys m) : nodupKeys (m.filter f) := by
  unfold nodupKeys at *
  exact ((List.filter_sublist m).map Prod.fst).nodup h

theorem nodupKeys_adel {α : Type} {m : List (String × α)} (k : String)
    (h : nodupKeys m) : nodupKeys (adel m k) := by
  rw [adel_eq_filter]; exact nodupKeys_filter _ h

theorem nodupKeys_aset {α : Type} {m : List (String × α)} (k : String) (v : α)
    (h : nodupKeys m) : nodupKeys (aset m k v) := by
  unfold nodupKeys at *
  rw [aset]
  refine List.nodup_cons.mpr ⟨?_, nodupKeys_adel k h⟩
  intro hmem
  rcases List.mem_map.mp hmem with ⟨e, he, hk⟩
  exact (mem_adel he).2 hk

theorem filter_ne_of_not_mem {l : List String} {p : String} (h : p ∉ l) :
    l.filter (fun id => id != p) = l := by
  apply List.filter_eq_self.mpr
  intro a ha
  simp only [bne_iff_ne, ne_eq, decide_eq_true_eq]
  exact fun hc => h (hc ▸ ha)

theorem aget_filter {α : Type} {m : List (String × α)} (hnd : nodupKeys m)
    (f : String × α → Bool) (k : String) :
    aget (m.filter f) k =
      match aget m k with
      | some v => if f (k, v) then some v else none
      | none => none := by
  induction m with
  | nil => simp [aget]
  | cons e rest ih =>
    have hnd' : nodupKeys rest := (List.nodup_cons.mp hnd).2
    by_cases h : e.1 = k
    · have hk : k ∉ rest.map Prod.fst := h ▸ (List.nodup_cons.mp hnd).1
      have hrest : aget rest k = none := by
        rw [aget_eq_none_iff]
        intro e2 he2 hc
        exact hk (List.mem_map.mpr ⟨e2, he2, hc⟩)
      by_cases hf : f e = true
      · have he : e = (k, e.2) := by
          cases e; simp at h; simp [h]
        simp [aget, h, hf, List.filter_cons, ← he]
      · simp only [Bool.not_eq_true] at hf
        simp [aget, h, hf, List.filter_cons, hrest, ih hnd']
        cases e; simp at h; subst h; simp [hf]
    · by_cases hf : f e = true
      · simp [aget, h, hf, List.filter_cons, ih hnd']
      · simp only [Bool.not_eq_true] at hf
        simp [aget, h, hf, List.filter_cons, ih hnd']

theorem aget_foldl_adel {l : List String} {m : List (String × String)} {p : String} :
    aget (l.foldl (fun m2 k => adel m2 k) m) p =
      if p ∈ l then none else aget m p := by
  induction l generalizing m with
  | nil => simp
  | cons k l' ih =>
    by_cases hp : p = k
    · subst hp
      by_cases hm : p ∈ l' <;> simp [List.foldl_cons, ih, hm, aget_adel_self]
    · by_cases hm : p ∈ l' <;>
        simp [List.foldl_cons, ih, hm, hp, aget_adel_ne m k p hp]

/-! ## Branch characterizations of `removePlayerFromRoom` -/

theorem remove_eq_notfound {st : GameState} {now : Nat} {p r : String}
    (h : aget st.rooms r = none) :
    removePlayerFromRoom st now p r = (st, RemoveResult.failure "Room not found") := by
  simp [removePlayerFromRoom, h]

theorem remove_eq_close {st : GameState} {now : Nat} {p r : String} {room : Room}
    (h : aget st.rooms r = some room)
    (hfil : room.players.filter (fun id => id != p) = [])
    (hh : p = room.hostId) :
    removePlayerFromRoom st now p r =
      ({ st with rooms := adel st.rooms r,
                 playerToRoom := adel st.playerToRoom p }, RemoveResult.okClosed) := by
  simp [removePlayerFromRoom, h, hfil, ← hh]

theorem remove_eq_transfer {st : GameState} {now : Nat} {p r : String} {room : Room}
    {newHost : String} {rest : List String}
    (h : aget st.rooms r = some room)
    (hfil : room.players.filter (fun id => id != p) = newHost :: rest)
    (hh : p = room.hostId) :
    removePlayerFromRoom st now p r =
      removeFinish { st with playerToRoom := adel st.playerToRoom p } now p r
        (if room.guestId = some newHost then
          { room with players := newHost :: rest, hostId := newHost, guestId := none }
         else { room with players := newHost :: rest, hostId := newHost }) := by
  by_cases hg : room.guestId = some newHost <;>
    simp [removePlayerFromRoom, removeFinish, h, hfil, ← hh, hg]

theorem remove_eq_nonhost {st : GameState} {now : Nat} {p r : String} {room : Room}
    (h : aget st.rooms r = some room)
    (hh : p ≠ room.hostId) :
    removePlayerFromRoom st now p r =
      removeFinish { st with playerToRoom := adel st.playerToRoom p } now p r
        { room with players := room.players.filter (fun id => id != p) } := by
  simp only [removePlayerFromRoom, h]
  split
  next hc => exact absurd hc hh
  next => rfl

/-- The room value `removeFinish` stores (guest slot cleared, forfeit
completion, `lastActivity` refresh). -/
def finishedRoom (now : Nat) (p : String) (room : Room) : Room :=
  let room1 := if room.guestId = some p then { room with guestId := none } else room
  let room2 :=
    if room1.status = RoomStatus.inProgress then
      { room1 with status := RoomStatus.completed,
                   gameData := { room1.gameData with
                                   endTime := some now,
                                   winner := room1.players.head? } }
    else room1
  { room2 with lastActivity := now }

theorem removeFinish_eq (st : GameState) (now : Nat) (p r : String) (room : Room) :
    removeFinish st now p r room =
      ({ st with rooms := aset st.rooms r (finishedRoom now p room) },
       RemoveResult.okRoom (finishedRoom now p room)) := rfl

theorem finishedRoom_players (now : Nat) (p : String) (room : Room) :
    (finishedRoom now p room).players = room.players := by
  simp only [finishedRoom]
  split <;> split <;> rfl

theorem finishedRoom_hostId (now : Nat) (p : String) (room : Room) :
    (finishedRoom now p room).hostId = room.hostId := by
  simp only [finishedRoom]
  split <;> split <;> rfl

theorem finishedRoom_guestId (now : Nat) (p : String) (room : Room) :
    (finishedRoom now p room).guestId =
      if room.guestId = some p then none else room.guestId := by
  simp only [finishedRoom]
  split <;> split <;> simp_all

theorem finishedRoom_status (now : Nat) (p : String) (room : Room) :
    (finishedRoom now p room).status =
      if room.status = RoomStatus.inProgress then RoomStatus.completed
      else room.status := by
  simp only [finishedRoom]
  split <;> split <;> simp_all

theorem finishedRoom_maxPlayers (now : Nat) (p : String) (room : Room) :
    (finishedRoom now p room).maxPlayers = room.maxPlayers := by
  simp only [finishedRoom]
  split <;> split <;> rfl

/-- `removePlayerFromRoom` never touches the players table. -/
theorem remove_players_map (st : GameState) (now : Nat) (p r : String) :
    (removePlayerFromRoom st now p r).1.players = st.players := by
  simp only [removePlayerFromRoom]
  split
  · rfl
  · split
    · split <;> rfl
    · rfl

/-- When the room exists, the reverse index comes out as `adel idx p`. -/
theorem remove_idx_of_found {st : GameState} {now : Nat} {p r : String} {room : Room}
    (h : aget st.rooms r = some room) :
    (removePlayerFromRoom st now p r).1.playerToRoom = adel st.playerToRoom p := by
  simp only [removePlayerFromRoom, h]
  split
  · split <;> rfl
  · rfl

/-- Other room codes are untouched by `removePlayerFromRoom`. -/
theorem remove_rooms_ne (st : GameState) (now : Nat) (p r : String)
    (r' : String) (hne : r' ≠ r) :
    aget (removePlayerFromRoom st now p r).1.rooms r' = aget st.rooms r' := by
  simp only [removePlayerFromRoom]
  split
  · rfl
  · split
    · split
      · exact aget_adel_ne _ _ _ hne
      · rw [removeFinish_eq]; exact aget_aset_ne _ _ _ _ hne
    · rw [removeFinish_eq]; exact aget_aset_ne _ _ _ _ hne

/-! ## Invariant preservation -/

/-- `IndexConsistent` over raw maps. -/
def idxConsistentM (rooms : List (String × Room)) (idx : List (String × String)) : Prop :=
  ∀ p r, aget idx p = some r ↔ ∃ room, aget rooms r = some room ∧ p ∈ room.players

theorem indexConsistent_def (st : GameState) :
    IndexConsistent st ↔ idxConsistentM st.rooms st.playerToRoom := Iff.rfl

/-- Index consistency survives replacing room `r`'s value when the new
roster is the old one minus `p`, while `p`'s index entry is deleted. -/
theorem ic_update {rooms : List (String × Room)} {idx : List (String × String)}
    {r p : String} {room newRoom : Room}
    (hIC : idxConsistentM rooms idx) (hroom : aget rooms r = some room)
    (hmem : ∀ q, q ∈ newRoom.players ↔ (q ∈ room.players ∧ q ≠ p))
    (hD : aget idx p = some r ∨ aget idx p = none) :
    idxConsistentM (aset rooms r newRoom) (adel idx p) := by
  intro q r'
  constructor
  · intro hq
    have hqp : q ≠ p := by
      intro h
      subst h
      rw [aget_adel_self] at hq
      exact Option.noConfusion hq
    rw [aget_adel_ne _ _ _ hqp] at hq
    rcases (hIC q r').mp hq with ⟨room', hr', hm⟩
    by_cases hr : r' = r
    · rcases hr with rfl
      rw [hroom] at hr'
      injection hr' with h'
      subst h'
      exact ⟨newRoom, aget_aset_self _ _ _, (hmem q).mpr ⟨hm, hqp⟩⟩
    · refine ⟨room', ?_, hm⟩
      rw [aget_aset_ne _ _ _ _ hr]
      exact hr'
  · rintro ⟨room', hr', hm⟩
    by_cases hr : r' = r
    · rcases hr with rfl
      rw [aget_aset_self] at hr'
      injection hr' with h'
      subst h'
      have hq := (hmem q).mp hm
      have hidx := (hIC q r').mpr ⟨room, hroom, hq.1⟩
      rw [aget_adel_ne _ _ _ hq.2]
      exact hidx
    · rw [aget_aset_ne _ _ _ _ hr] at hr'
      have hidx := (hIC q r').mpr ⟨room', hr', hm⟩
      by_cases hqp : q = p
      · subst hqp
        rcases hD with h | h
        · rw [h] at hidx
          injection hidx with h'
          exact absurd h'.symm hr
        · rw [h] at hidx
          exact Option.noConfusion hidx
      · rw [aget_adel_ne _ _ _ hqp]
        exact hidx

/-- Index consistency survives deleting room `r` outright when `p` was its
only occupant and `p`'s index entry is deleted too. -/
theorem ic_delete {rooms : List (String × Room)} {idx : List (String × String)}
    {r p : String} {room : Room}
    (hIC : idxConsistentM rooms idx) (hroom : aget rooms r = some room)
    (honly : ∀ q ∈ room.players, q = p)
    (hD : aget idx p = some r ∨ aget idx p = none) :
    idxConsistentM (adel rooms r) (adel idx p) := by
  intro q r'
  constructor
  · intro hq
    have hqp : q ≠ p := by
      intro h
      subst h
      rw [aget_adel_self] at hq
      exact Option.noConfusion hq
    rw [aget_adel_ne _ _ _ hqp] at hq
    rcases (hIC q r').mp hq with ⟨room', hr', hm⟩
    by_cases hr : r' = r
    · rcases hr with rfl
      rw [hroom] at hr'
      injection hr' with h'
      subst h'
      exact absurd (honly q hm) hqp
    · refine ⟨room', ?_, hm⟩
      rw [aget_adel_ne _ _ _ hr]
      exact hr'
  · rintro ⟨room', hr', hm⟩
    by_cases hr : r' = r
    · rcases hr with rfl
      rw [aget_adel_self] at hr'
      exact Option.noConfusion hr'
    · rw [aget_adel_ne _ _ _ hr] at hr'
      have hidx := (hIC q r').mpr ⟨room', hr', hm⟩
      by_cases hqp : q = p
      · subst hqp
        rcases hD with h | h
        · rw [h] at hidx
          injection hidx with h'
          exact absurd h'.symm hr
        · rw [h] at hidx
          exact Option.noConfusion hidx
      · rw [aget_adel_ne _ _ _ hqp]
        exact hidx

/-- `RoomsInv` over a raw rooms map. -/
def roomsInvM (rooms : List (String × Room)) : Prop :=
  ∀ r room, aget rooms r = some room → RoomInv room

theorem roomsInv_def (st : GameState) : RoomsInv st ↔ roomsInvM st.rooms := Iff.rfl

theorem roomsInvM_aset {rooms : List (String × Room)} {r : String} {newRoom : Room}
    (h : roomsInvM rooms) (hn : RoomInv newRoom) : roomsInvM (aset rooms r newRoom) := by
  intro r' room' h'
  by_cases hr : r' = r
  · rcases hr with rfl
    rw [aget_aset_self] at h'
    injection h' with h2
    subst h2
    exact hn
  · rw [aget_aset_ne _ _ _ _ hr] at h'
    exact h _ _ h'

theorem roomsInvM_adel {rooms : List (String × Room)} {r : String}
    (h : roomsInvM rooms) : roomsInvM (adel rooms r) := by
  intro r' room' h'
  by_cases hr : r' = r
  · rcases hr with rfl
    rw [aget_adel_self] at h'
    exact Option.noConfusion h'
  · rw [aget_adel_ne _ _ _ hr] at h'
    exact h _ _ h'

theorem roomInv_host_mem {room : Room} (h : RoomInv room) :
    room.hostId ∈ room.players := by
  rcases h.2 with ⟨a, hp, hh, _⟩ | ⟨a, b, hp, hh, _, _⟩ <;> rw [hp, hh] <;> simp

/-- `RoomInv` only looks at roster, host and guest. -/
theorem roomInv_of_fields {room room2 : Room} (h : RoomInv room)
    (hm : room2.maxPlayers = room.maxPlayers)
    (hp : room2.players = room.players) (hh : room2.hostId = room.hostId)
    (hg : room2.guestId = room.guestId) : RoomInv room2 := by
  refine ⟨by rw [hm, h.1], ?_⟩
  rcases h.2 with ⟨a, h1, h2, h3⟩ | ⟨a, b, h1, h2, h3, h4⟩
  · exact Or.inl ⟨a, by rw [hp, h1], by rw [hh, h2], by rw [hg, h3]⟩
  · exact Or.inr ⟨a, b, by rw [hp, h1], by rw [hh, h2], by rw [hg, h3], h4⟩

theorem room_set_players_self (room : Room) :
    ({ room with players := room.players } : Room) = room := rfl

/-- `removePlayerFromRoom` preserves the registry invariant whenever the
target room is the caller's indexed room (or the caller is in no room). -/
theorem remove_inv (st : GameState) (now : Nat) (p r : String)
    (hInv : RegistryInv st)
    (hD : aget st.playerToRoom p = some r ∨ aget st.playerToRoom p = none) :
    RegistryInv (removePlayerFromRoom st now p r).1 := by
  obtain ⟨hIC, hRI, hND⟩ := hInv
  cases hroom : aget st.rooms r with
  | none =>
    rw [remove_eq_notfound hroom]
    exact ⟨hIC, hRI, hND⟩
  | some room =>
    have hRoomInv := hRI r room hroom
    by_cases hmem : p ∈ room.players
    · rcases hRoomInv.2 with ⟨a, hp, hh, hg⟩ | ⟨a, b, hp, hh, hg, hne⟩
      · -- sole occupant leaves: room is closed
        have hpa : p = a := by simpa [hp] using hmem
        have hfil : room.players.filter (fun id => id != p) = [] := by
          rw [hp, hpa]
          simp
        have hph : p = room.hostId := by rw [hh, hpa]
        rw [remove_eq_close hroom hfil hph]
        refine ⟨?_, ?_, ?_, ?_, ?_⟩
        · refine ic_delete hIC hroom ?_ hD
          rw [hp]
          intro q hq
          have hqa : q = a := by simpa using hq
          exact hqa.trans hpa.symm
        · exact roomsInvM_adel hRI
        · exact nodupKeys_adel _ hND.1
        · exact hND.2.1
        · exact nodupKeys_adel _ hND.2.2
      · by_cases hpa : p = a
        · -- host of a full room leaves: guest b promoted, guest slot cleared
          have hfil : room.players.filter (fun id => id != p) = [b] := by
            rw [hp, hpa]
            have : (b != a) = true := by simpa [bne_iff_ne] using hne.symm
            simp [List.filter, this]
          have hph : p = room.hostId := by rw [hh, hpa]
          rw [remove_eq_transfer hroom hfil hph, if_pos (by rw [hg]), removeFinish_eq]
          have hbp : b ≠ p := by rw [hpa]; exact hne.symm
          refine ⟨?_, ?_, ?_, ?_, ?_⟩
          · refine ic_update hIC hroom ?_ hD
            intro q
            rw [finishedRoom_players, hp]
            constructor
            · intro hq
              have : q = b := by simpa using hq
              subst this
              exact ⟨by simp, hbp⟩
            · rintro ⟨hq, hqp⟩
              rcases (by simpa using hq : q = a ∨ q = b) with h1 | h1
              · exact absurd (h1.trans hpa.symm) hqp
              · simpa using h1
          · refine roomsInvM_aset hRI ⟨?_, Or.inl ⟨b, ?_, ?_, ?_⟩⟩
            · rw [finishedRoom_maxPlayers]
              exact hRoomInv.1
            · rw [finishedRoom_players]
            · rw [finishedRoom_hostId]
            · rw [finishedRoom_guestId]
              simp
          · exact nodupKeys_aset _ _ hND.1
          · exact hND.2.1
          · exact nodupKeys_adel _ hND.2.2
        · -- guest of a full room leaves: guest slot cleared
          have hpb : p = b := by
            rcases (by simpa [hp] using hmem : p = a ∨ p = b) with h1 | h1
            · exact absurd h1 hpa
            · exact h1
          have hph : p ≠ room.hostId := by
            rw [hh]
            exact hpa
          have hfil : room.players.filter (fun id => id != p) = [a] := by
            rw [hp, hpb]
            have : (a != b) = true := by simpa [bne_iff_ne] using hne
            simp [List.filter, this]
          rw [remove_eq_nonhost hroom hph, hfil, removeFinish_eq]
          refine ⟨?_, ?_, ?_, ?_, ?_⟩
          · refine ic_update hIC hroom ?_ hD
            intro q
            rw [finishedRoom_players, hp]
            constructor
            · intro hq
              have : q = a := by simpa using hq
              subst this
              exact ⟨by simp, by rw [hpb]; exact hne⟩
            · rintro ⟨hq, hqp⟩
              rcases (by simpa using hq : q = a ∨ q = b) with h1 | h1
              · simpa using h1
              · exact absurd (h1.trans hpb.symm) hqp
          · refine roomsInvM_aset hRI ⟨?_, Or.inl ⟨a, ?_, ?_, ?_⟩⟩
            · rw [finishedRoom_maxPlayers]
              exact hRoomInv.1
            · rw [finishedRoom_players]
            · rw [finishedRoom_hostId, hh]
            · rw [finishedRoom_guestId]
              rw [show ({ room with players := [a] } : Room).guestId = room.guestId from rfl, hg, hpb]
              simp
          · exact nodupKeys_aset _ _ hND.1
          · exact hND.2.1
          · exact nodupKeys_adel _ hND.2.2
    · -- not a roster member: roster, host and guest survive unchanged
      have hfil : room.players.filter (fun id => id != p) = room.players :=
        filter_ne_of_not_mem hmem
      have hph : p ≠ room.hostId := by
        intro h
        exact hmem (h ▸ roomInv_host_mem hRoomInv)
      have hgp : room.guestId ≠ some p := by
        intro h
        rcases hRoomInv.2 with ⟨a, hp, hh, hg⟩ | ⟨a, b, hp, hh, hg, hne⟩
        · rw [hg] at h
          exact Option.noConfusion h
        · rw [hg] at h
          injection h with h2
          apply hmem
          rw [hp, ← h2]
          simp
      rw [remove_eq_nonhost hroom hph, hfil, room_set_players_self, removeFinish_eq]
      refine ⟨?_, ?_, ?_, ?_, ?_⟩
      · refine ic_update hIC hroom ?_ hD
        intro q
        rw [finishedRoom_players]
        constructor
        · intro hq
          exact ⟨hq, fun h => hmem (h ▸ hq)⟩
        · exact fun h => h.1
      · refine roomsInvM_aset hRI ?_
        refine roomInv_of_fields hRoomInv ?_ ?_ ?_ ?_
        · rw [finishedRoom_maxPlayers]
        · rw [finishedRoom_players]
        · rw [finishedRoom_hostId]
        · rw [finishedRoom_guestId, if_neg hgp]
      · exact nodupKeys_aset _ _ hND.1
      · exact hND.2.1
      · exact nodupKeys_adel _ hND.2.2

/-- Deleting an index key that is already absent hurts nothing. -/
theorem ic_adel_of_none {rooms : List (String × Room)} {idx : List (String × String)}
    {p : String} (hIC : idxConsistentM rooms idx) (hp : aget idx p = none) :
    idxConsistentM rooms (adel idx p) := by
  intro q r'
  by_cases hq : q = p
  · subst hq
    rw [aget_adel_self]
    constructor
    · intro h
      exact Option.noConfusion h
    · intro h
      rw [← hp]
      exact (hIC q r').mpr h
  · rw [aget_adel_ne _ _ _ hq]
    exact hIC q r'

theorem leaveAll_inv (st : GameState) (now : Nat) (p : String)
    (hInv : RegistryInv st) : RegistryInv (leaveAllRooms st now p).1 := by
  unfold leaveAllRooms
  cases hidx : aget st.playerToRoom p with
  | some roomId => exact remove_inv st now p roomId hInv (Or.inl hidx)
  | none => exact hInv

theorem register_inv (st : GameState) (now : Nat) (p : String) (pname : Option String)
    (hInv : RegistryInv st) : RegistryInv (registerPlayer st now p pname).1 := by
  obtain ⟨hIC, hRI, hND⟩ := hInv
  exact ⟨hIC, hRI, hND.1, nodupKeys_aset _ _ hND.2.1, hND.2.2⟩

/-- After `leaveAllRooms`, the leaver has no index entry (given the invariant). -/
theorem leaveAll_idx_none (st : GameState) (now : Nat) (p : String)
    (hInv : RegistryInv st) :
    aget (leaveAllRooms st now p).1.playerToRoom p = none := by
  unfold leaveAllRooms
  cases hidx : aget st.playerToRoom p with
  | some roomId =>
    rcases (hInv.1 p roomId).mp hidx with ⟨room, hroom, _⟩
    rw [remove_idx_of_found hroom]
    exact aget_adel_self _ _
  | none => exact hidx

/-- `leaveAllRooms` can only change the room the leaver's index names. -/
theorem leaveAll_rooms_ne (st : GameState) (now : Nat) (p : String) (r : String)
    (hr : aget st.playerToRoom p ≠ some r) :
    aget (leaveAllRooms st now p).1.rooms r = aget st.rooms r := by
  unfold leaveAllRooms
  cases hidx : aget st.playerToRoom p with
  | some roomId =>
    have : r ≠ roomId := by
      intro h
      exact hr (h ▸ hidx)
    exact remove_rooms_ne st now p roomId r this
  | none => rfl

/-- `leaveAllRooms` never touches the players table. -/
theorem leaveAll_players_map (st : GameState) (now : Nat) (p : String) :
    (leaveAllRooms st now p).1.players = st.players := by
  unfold leaveAllRooms
  cases aget st.playerToRoom p with
  | some roomId => exact remove_players_map st now p roomId
  | none => rfl

theorem unregister_inv (st : GameState) (now : Nat) (p : String)
    (hInv : RegistryInv st) : RegistryInv (unregisterPlayer st now p) := by
  unfold unregisterPlayer
  cases hidx : aget st.playerToRoom p with
  | some roomId =>
    rcases (hInv.1 p roomId).mp hidx with ⟨room, hroom, _⟩
    have hInv1 := remove_inv st now p roomId hInv (Or.inl hidx)
    have hidx1 : aget (removePlayerFromRoom st now p roomId).1.playerToRoom p = none := by
      rw [remove_idx_of_found hroom]
      exact aget_adel_self _ _
    obtain ⟨hIC1, hRI1, hND1⟩ := hInv1
    exact ⟨ic_adel_of_none hIC1 hidx1, hRI1,
      hND1.1, nodupKeys_adel _ hND1.2.1, nodupKeys_adel _ hND1.2.2⟩
  | none =>
    obtain ⟨hIC, hRI, hND⟩ := hInv
    exact ⟨ic_adel_of_none hIC hidx, hRI,
      hND.1, nodupKeys_adel _ hND.2.1, nodupKeys_adel _ hND.2.2⟩

/-- Inserting a fresh one-occupant room with its index entry. -/
theorem ic_insert {rooms : List (String × Room)} {idx : List (String × String)}
    {code hostId : String} {newRoom : Room}
    (hIC : idxConsistentM rooms idx) (hfresh : aget rooms code = none)
    (hhost : aget idx hostId = none) (hpl : newRoom.players = [hostId]) :
    idxConsistentM (aset rooms code newRoom) (aset idx hostId code) := by
  intro q r'
  by_cases hq : q = hostId
  · subst hq
    rw [aget_aset_self]
    constructor
    · intro h
      injection h with h'
      subst h'
      exact ⟨newRoom, aget_aset_self _ _ _, by rw [hpl]; simp⟩
    · rintro ⟨room', hr', hm⟩
      by_cases hr : r' = code
      · rw [hr]
      · rw [aget_aset_ne _ _ _ _ hr] at hr'
        have h2 := (hIC q r').mpr ⟨room', hr', hm⟩
        rw [hhost] at h2
        exact Option.noConfusion h2
  · rw [aget_aset_ne _ _ _ _ hq]
    by_cases hr : r' = code
    · constructor
      · intro h
        rcases (hIC q r').mp h with ⟨room', hr', _⟩
        rw [hr, hfresh] at hr'
        exact Option.noConfusion hr'
      · rintro ⟨room', hr', hm⟩
        rw [hr, aget_aset_self] at hr'
        injection hr' with h'
        subst h'
        rw [hpl] at hm
        exact absurd (by simpa using hm) hq
    · constructor
      · intro h
        rcases (hIC q r').mp h with ⟨room', hr', hm⟩
        refine ⟨room', ?_, hm⟩
        rw [aget_aset_ne _ _ _ _ hr]
        exact hr'
      · rintro ⟨room', hr', hm⟩
        rw [aget_aset_ne _ _ _ _ hr] at hr'
        exact (hIC q r').mpr ⟨room', hr', hm⟩

/-- The room record `createRoom` registers. -/
def newRoomRecord (now : Nat) (hostId code nm : String) (priv : Bool) : Room :=
  { id := code, name := nm, hostId := hostId, guestId := none,
    status := RoomStatus.waiting, isPrivate := priv, maxPlayers := 2,
    players := [hostId], spectators := [],
    gameData := { turnCount := 0, currentTurn := none, battleLog := [],
                  startTime := none, endTime := none, winner := none },
    createdAt := now, lastActivity := now }

/-- The display name `createRoom` picks (`roomData.name || host.name + "'s Room"`). -/
def createName (rdata : RoomData) (host : Player) : String :=
  match rdata.name with
  | some n => if n = "" then host.name ++ "\x27s Room" else n
  | none => host.name ++ "\x27s Room"

theorem create_eq_nohost {st : GameState} {now : Nat} {hostId : String}
    {rdata : RoomData} {genCode : String}
    (h : aget (leaveAllRooms st now hostId).1.players hostId = none) :
    createRoom st now hostId rdata genCode = ((leaveAllRooms st now hostId).1, none) := by
  simp [createRoom, h]

theorem create_eq_ok {st : GameState} {now : Nat} {hostId : String}
    {rdata : RoomData} {genCode : String} {host : Player}
    (h : aget (leaveAllRooms st now hostId).1.players hostId = some host) :
    createRoom st now hostId rdata genCode =
      ({ (leaveAllRooms st now hostId).1 with
           rooms := aset (leaveAllRooms st now hostId).1.rooms
             (Op.createCode rdata genCode)
             (newRoomRecord now hostId (Op.createCode rdata genCode)
               (createName rdata host) rdata.isPrivate),
           playerToRoom := aset (leaveAllRooms st now hostId).1.playerToRoom
             hostId (Op.createCode rdata genCode) },
       some (newRoomRecord now hostId (Op.createCode rdata genCode)
               (createName rdata host) rdata.isPrivate)) := by
  simp only [createRoom, h, Op.createCode, newRoomRecord, createName]

theorem create_inv (st : GameState) (now : Nat) (hostId : String)
    (rdata : RoomData) (genCode : String)
    (hInv : RegistryInv st)
    (hfresh : aget st.rooms (Op.createCode rdata genCode) = none) :
    RegistryInv (createRoom st now hostId rdata genCode).1 := by
  have hInv1 := leaveAll_inv st now hostId hInv
  have hfresh1 : aget (leaveAllRooms st now hostId).1.rooms (Op.createCode rdata genCode) = none := by
    rw [leaveAll_rooms_ne]
    · exact hfresh
    · intro h
      rcases (hInv.1 hostId (Op.createCode rdata genCode)).mp h with ⟨room, hroom, _⟩
      rw [hfresh] at hroom
      exact Option.noConfusion hroom
  have hidx1 : aget (leaveAllRooms st now hostId).1.playerToRoom hostId = none :=
    leaveAll_idx_none st now hostId hInv
  cases hhost : aget (leaveAllRooms st now hostId).1.players hostId with
  | none =>
    rw [create_eq_nohost hhost]
    exact hInv1
  | some host =>
    rw [create_eq_ok hhost]
    obtain ⟨hIC1, hRI1, hND1⟩ := hInv1
    refine ⟨?_, ?_, ?_, ?_, ?_⟩
    · exact ic_insert hIC1 hfresh1 hidx1 rfl
    · exact roomsInvM_aset hRI1 ⟨rfl, Or.inl ⟨hostId, rfl, rfl, rfl⟩⟩
    · exact nodupKeys_aset _ _ hND1.1
    · exact hND1.2.1
    · exact nodupKeys_aset _ _ hND1.2.2

/-- The room value stored by a successful (non-detached) `addPlayerToRoom`. -/
def joinedRoom (now : Nat) (p : String) (room : Room) : Room :=
  let roomA := { room with players := room.players ++ [p] }
  let roomB := if roomA.players.length = 2 then { roomA with guestId := some p } else roomA
  { roomB with lastActivity := now }

theorem add_eq_noroom {st : GameState} {now : Nat} {p r : String}
    (h : aget st.rooms r = none) :
    addPlayerToRoom st now p r = (st, JoinResult.failure "Room not found") := by
  simp [addPlayerToRoom, h]

theorem add_eq_noplayer {st : GameState} {now : Nat} {p r : String} {room : Room}
    (hroom : aget st.rooms r = some room) (h : aget st.players p = none) :
    addPlayerToRoom st now p r = (st, JoinResult.failure "Player not found") := by
  simp [addPlayerToRoom, hroom, h]

theorem add_eq_full {st : GameState} {now : Nat} {p r : String} {room : Room} {pl : Player}
    (hroom : aget st.rooms r = some room) (hp : aget st.players p = some pl)
    (hlen : room.players.length ≥ room.maxPlayers) :
    addPlayerToRoom st now p r = (st, JoinResult.failure "Room is full") := by
  simp [addPlayerToRoom, hroom, hp, hlen]

theorem add_eq_notwaiting {st : GameState} {now : Nat} {p r : String} {room : Room} {pl : Player}
    (hroom : aget st.rooms r = some room) (hp : aget st.players p = some pl)
    (hlen : ¬ room.players.length ≥ room.maxPlayers)
    (hst : room.status ≠ RoomStatus.waiting) :
    addPlayerToRoom st now p r = (st, JoinResult.failure "Room is not accepting new players") := by
  simp [addPlayerToRoom, hroom, hp, hlen, hst]

theorem add_eq_join {st : GameState} {now : Nat} {p r : String} {room room2 : Room} {pl : Player}
    (hroom : aget st.rooms r = some room) (hp : aget st.players p = some pl)
    (hlen : ¬ room.players.length ≥ room.maxPlayers)
    (hst : room.status = RoomStatus.waiting)
    (h1 : aget (leaveAllRooms st now p).1.rooms r = some room2) :
    addPlayerToRoom st now p r =
      ({ (leaveAllRooms st now p).1 with
           rooms := aset (leaveAllRooms st now p).1.rooms r (joinedRoom now p room2),
           playerToRoom := aset (leaveAllRooms st now p).1.playerToRoom p r },
       JoinResult.ok (joinedRoom now p room2)) := by
  simp [addPlayerToRoom, hroom, hp, hlen, hst, h1, joinedRoom]

/-- Appending a new occupant to an existing room with its index entry. -/
theorem ic_join {rooms : List (String × Room)} {idx : List (String × String)}
    {r p : String} {room newRoom : Room}
    (hIC : idxConsistentM rooms idx) (hroom : aget rooms r = some room)
    (hpidx : aget idx p = none) (hpl : newRoom.players = room.players ++ [p]) :
    idxConsistentM (aset rooms r newRoom) (aset idx p r) := by
  intro q r'
  by_cases hq : q = p
  · subst hq
    rw [aget_aset_self]
    constructor
    · intro h
      injection h with h'
      subst h'
      exact ⟨newRoom, aget_aset_self _ _ _, by rw [hpl]; simp⟩
    · rintro ⟨room', hr', hm⟩
      by_cases hr : r' = r
      · rw [hr]
      · rw [aget_aset_ne _ _ _ _ hr] at hr'
        have h2 := (hIC q r').mpr ⟨room', hr', hm⟩
        rw [hpidx] at h2
        exact Option.noConfusion h2
  · rw [aget_aset_ne _ _ _ _ hq]
    by_cases hr : r' = r
    · constructor
      · intro h
        rcases (hIC q r').mp h with ⟨room', hr', hm⟩
        rw [hr, hroom] at hr'
        injection hr' with h'
        subst h'
        refine ⟨newRoom, ?_, ?_⟩
        · rw [hr]
          exact aget_aset_self _ _ _
        · rw [hpl]
          exact List.mem_append_left _ hm
      · rintro ⟨room', hr', hm⟩
        rw [hr, aget_aset_self] at hr'
        injection hr' with h'
        subst h'
        rw [hpl] at hm
        rcases List.mem_append.mp hm with h2 | h2
        · rw [hr]
          exact (hIC q r).mpr ⟨room, hroom, h2⟩
        · exact absurd (by simpa using h2) hq
    · constructor
      · intro h
        rcases (hIC q r').mp h with ⟨room', hr', hm⟩
        refine ⟨room', ?_, hm⟩
        rw [aget_aset_ne _ _ _ _ hr]
        exact hr'
      · rintro ⟨room', hr', hm⟩
        rw [aget_aset_ne _ _ _ _ hr] at hr'
        exact (hIC q r').mpr ⟨room', hr', hm⟩

theorem add_inv (st : GameState) (now : Nat) (p r : String)
    (hInv : RegistryInv st)
    (hD : aget st.playerToRoom p ≠ some r) :
    RegistryInv (addPlayerToRoom st now p r).1 := by
  cases hroom : aget st.rooms r with
  | none =>
    rw [add_eq_noroom hroom]
    exact hInv
  | some room =>
  cases hp : aget st.players p with
  | none =>
    rw [add_eq_noplayer hroom hp]
    exact hInv
  | some pl =>
  by_cases hlen : room.players.length ≥ room.maxPlayers
  · rw [add_eq_full hroom hp hlen]
    exact hInv
  · by_cases hst : room.status = RoomStatus.waiting
    · -- join path
      have h1 : aget (leaveAllRooms st now p).1.rooms r = some room := by
        rw [leaveAll_rooms_ne st now p r hD]
        exact hroom
      rw [add_eq_join hroom hp hlen hst h1]
      have hInv1 := leaveAll_inv st now p hInv
      obtain ⟨hIC1, hRI1, hND1⟩ := hInv1
      have hidx1 : aget (leaveAllRooms st now p).1.playerToRoom p = none :=
        leaveAll_idx_none st now p hInv
      have hpmem : p ∉ room.players := by
        intro hmem
        exact hD ((hInv.1 p r).mpr ⟨room, hroom, hmem⟩)
      have hmax : room.maxPlayers = 2 := (hInv.2.1 r room hroom).1
      have hshape : ∃ a, room.players = [a] ∧ room.hostId = a ∧ room.guestId = none := by
        rcases (hInv.2.1 r room hroom).2 with h2 | ⟨a, b, hpl2, _, _, _⟩
        · exact h2
        · exfalso
          exact hlen (by rw [hpl2, hmax]; simp)
      obtain ⟨a, hpl1, hh1, hg1⟩ := hshape
      have hpa : p ≠ a := by
        intro h
        exact hpmem (by rw [hpl1, h]; simp)
      refine ⟨?_, ?_, ?_, ?_, ?_⟩
      · refine ic_join hIC1 h1 hidx1 ?_
        simp [joinedRoom, hpl1]
      · refine roomsInvM_aset hRI1 ?_
        refine ⟨?_, Or.inr ⟨a, p, ?_, ?_, ?_, fun h => hpa h.symm⟩⟩
        · simp [joinedRoom, hpl1, hmax]
        · simp [joinedRoom, hpl1]
        · simp [joinedRoom, hpl1, hh1]
        · simp [joinedRoom, hpl1]
      · exact nodupKeys_aset _ _ hND1.1
      · exact hND1.2.1
      · exact nodupKeys_aset _ _ hND1.2.2
    · rw [add_eq_notwaiting hroom hp hlen hst]
      exact hInv

/-- Replacing a room by one with the same roster keeps the index consistent. -/
theorem ic_same_roster {rooms : List (String × Room)} {idx : List (String × String)}
    {r : String} {room newRoom : Room}
    (hIC : idxConsistentM rooms idx) (hroom : aget rooms r = some room)
    (hpl : newRoom.players = room.players) :
    idxConsistentM (aset rooms r newRoom) idx := by
  intro q r'
  by_cases hr : r' = r
  · constructor
    · intro h
      rcases (hIC q r').mp h with ⟨room'', hr'', hm⟩
      rw [hr, hroom] at hr''
      injection hr'' with h2
      subst h2
      refine ⟨newRoom, ?_, ?_⟩
      · rw [hr]
        exact aget_aset_self _ _ _
      · rw [hpl]
        exact hm
    · rintro ⟨room', hr', hm⟩
      rw [hr, aget_aset_self] at hr'
      injection hr' with h2
      subst h2
      rw [hpl] at hm
      rw [hr]
      exact (hIC q r).mpr ⟨room, hroom, hm⟩
  · constructor
    · intro h
      rcases (hIC q r').mp h with ⟨room', hr', hm⟩
      refine ⟨room', ?_, hm⟩
      rw [aget_aset_ne _ _ _ _ hr]
      exact hr'
    · rintro ⟨room', hr', hm⟩
      rw [aget_aset_ne _ _ _ _ hr] at hr'
      exact (hIC q r').mpr ⟨room', hr', hm⟩

theorem updatePlayerWith_eq_none {st : GameState} {now : Nat} {p : String}
    {f : Player → Player} (hp : aget st.players p = none) :
    updatePlayerWith st now p f = (st, none) := by
  simp [updatePlayerWith, hp]

theorem updatePlayerWith_eq_some {st : GameState} {now : Nat} {p : String}
    {f : Player → Player} {pl : Player} (hp : aget st.players p = some pl) :
    updatePlayerWith st now p f =
      ({ st with players := aset st.players p { f pl with lastActive := now } },
       some { f pl with lastActive := now }) := by
  simp [updatePlayerWith, hp]

/-- A state differing only in the players table keeps index consistency,
rooms invariants, and rooms/index key-nodup facts. -/
theorem inv_players_only (st : GameState) (pl2 : List (String × Player))
    (hInv : RegistryInv st) (hnd : nodupKeys pl2) :
    RegistryInv ⟨st.rooms, pl2, st.playerToRoom⟩ :=
  ⟨hInv.1, hInv.2.1, hInv.2.2.1, hnd, hInv.2.2.2.2⟩

theorem setChar_inv (st : GameState) (now : Nat) (p : String) (c : Character)
    (hInv : RegistryInv st) : RegistryInv (setPlayerCharacter st now p c).1 := by
  unfold setPlayerCharacter
  cases hp : aget st.players p with
  | none =>
    rw [updatePlayerWith_eq_none hp]
    exact hInv
  | some pl =>
    rw [updatePlayerWith_eq_some hp]
    dsimp only
    cases hidx : aget st.playerToRoom p with
    | none =>
      dsimp only
      exact ⟨hInv.1, hInv.2.1, hInv.2.2.1, nodupKeys_aset _ _ hInv.2.2.2.1, hInv.2.2.2.2⟩
    | some roomId =>
      dsimp only
      cases hroom : aget st.rooms roomId with
      | none =>
        dsimp only
        exact ⟨hInv.1, hInv.2.1, hInv.2.2.1, nodupKeys_aset _ _ hInv.2.2.2.1, hInv.2.2.2.2⟩
      | some room =>
        dsimp only
        exact ⟨ic_same_roster hInv.1 hroom rfl,
               roomsInvM_aset hInv.2.1 (roomInv_of_fields (hInv.2.1 _ _ hroom) rfl rfl rfl rfl),
               nodupKeys_aset _ _ hInv.2.2.1,
               nodupKeys_aset _ _ hInv.2.2.2.1,
               hInv.2.2.2.2⟩

theorem setReady_inv (st : GameState) (now : Nat) (p : String) (b : Bool)
    (hInv : RegistryInv st) : RegistryInv (setPlayerReady st now p b).1 := by
  unfold setPlayerReady
  cases hp : aget st.players p with
  | none =>
    rw [updatePlayerWith_eq_none hp]
    exact hInv
  | some pl =>
    rw [updatePlayerWith_eq_some hp]
    dsimp only
    cases hidx : aget st.playerToRoom p with
    | none =>
      dsimp only
      exact ⟨hInv.1, hInv.2.1, hInv.2.2.1, nodupKeys_aset _ _ hInv.2.2.2.1, hInv.2.2.2.2⟩
    | some roomId =>
      dsimp only
      cases hroom : aget st.rooms roomId with
      | none =>
        dsimp only
        exact ⟨hInv.1, hInv.2.1, hInv.2.2.1, nodupKeys_aset _ _ hInv.2.2.2.1, hInv.2.2.2.2⟩
      | some room =>
        dsimp only
        refine ⟨ic_same_roster hInv.1 hroom ?_,
               roomsInvM_aset hInv.2.1 (roomInv_of_fields (hInv.2.1 _ _ hroom) ?_ ?_ ?_ ?_),
               nodupKeys_aset _ _ hInv.2.2.1,
               nodupKeys_aset _ _ hInv.2.2.2.1,
               hInv.2.2.2.2⟩ <;>
          · split <;> rfl

theorem start_inv (st : GameState) (now : Nat) (rid : String)
    (hInv : RegistryInv st) : RegistryInv (startGame st now rid).1 := by
  unfold startGame
  cases hroom : aget st.rooms rid with
  | none => exact hInv
  | some room =>
    dsimp only
    by_cases hst : room.status ≠ RoomStatus.ready
    · rw [if_pos hst]
      exact hInv
    · rw [if_neg hst]
      by_cases hlen : room.players.length ≠ 2
      · rw [if_pos hlen]
        exact hInv
      · rw [if_neg hlen]
        exact ⟨ic_same_roster hInv.1 hroom rfl,
               roomsInvM_aset hInv.2.1 (roomInv_of_fields (hInv.2.1 _ _ hroom) rfl rfl rfl rfl),
               nodupKeys_aset _ _ hInv.2.2.1,
               hInv.2.2.2.1,
               hInv.2.2.2.2⟩

/-- `processAbilityUse` leaves roster, host, guest, capacity and status alone. -/
theorem processAbilityUse_room (acting target : Player) (aid : String) (room : Room) :
    (processAbilityUse acting target aid room).2.2.1.players = room.players ∧
    (processAbilityUse acting target aid room).2.2.1.hostId = room.hostId ∧
    (processAbilityUse acting target aid room).2.2.1.guestId = room.guestId ∧
    (processAbilityUse acting target aid room).2.2.1.maxPlayers = room.maxPlayers ∧
    (processAbilityUse acting target aid room).2.2.1.status = room.status ∧
    (processAbilityUse acting target aid room).2.2.1.gameData.currentTurn = room.gameData.currentTurn ∧
    (processAbilityUse acting target aid room).2.2.1.gameData.turnCount = room.gameData.turnCount := by
  simp only [processAbilityUse]
  split
  · exact ⟨rfl, rfl, rfl, rfl, rfl, rfl, rfl⟩
  · split
    · exact ⟨rfl, rfl, rfl, rfl, rfl, rfl, rfl⟩
    · exact ⟨rfl, rfl, rfl, rfl, rfl, rfl, rfl⟩

theorem act_inv (st : GameState) (now : Nat) (p : String) (a : GAction)
    (hInv : RegistryInv st) : RegistryInv (processGameAction st now p a).1 := by
  unfold processGameAction
  cases hidx : aget st.playerToRoom p with
  | none => exact hInv
  | some roomId =>
  dsimp only
  cases hroom : aget st.rooms roomId with
  | none => exact hInv
  | some room =>
  dsimp only
  by_cases hst : room.status ≠ RoomStatus.inProgress
  · rw [if_pos hst]
    exact hInv
  rw [if_neg hst]
  by_cases hturn : room.gameData.currentTurn ≠ some p
  · rw [if_pos hturn]
    exact hInv
  rw [if_neg hturn]
  cases htid : (if p = room.hostId then room.guestId else some room.hostId) with
  | none => exact hInv
  | some targetId =>
  dsimp only
  cases hact : aget st.players p with
  | none => dsimp only; exact hInv
  | some acting =>
  cases htgt : aget st.players targetId with
  | none => dsimp only; exact hInv
  | some target =>
  dsimp only
  have hfinal : ∀ (room4 : Room) (a2 t2 : Player),
      room4.players = room.players → room4.hostId = room.hostId →
      room4.guestId = room.guestId → room4.maxPlayers = room.maxPlayers →
      RegistryInv ({ st with
        rooms := aset st.rooms roomId room4,
        players := aset (aset st.players p a2) targetId t2 } : GameState) := by
    intro room4 a2 t2 h1 h2 h3 h4
    exact ⟨ic_same_roster hInv.1 hroom h1,
           roomsInvM_aset hInv.2.1 (roomInv_of_fields (hInv.2.1 _ _ hroom) h4 h1 h2 h3),
           nodupKeys_aset _ _ hInv.2.2.1,
           nodupKeys_aset _ _ (nodupKeys_aset _ _ hInv.2.2.2.1),
           hInv.2.2.2.2⟩
  cases a with
  | unknown t => exact hInv
  | surrender =>
    dsimp only [processSurrender]
    split
    · exact hfinal _ _ _ rfl rfl rfl rfl
    · exact hfinal _ _ _ rfl rfl rfl rfl
  | ability aid =>
    have hfields := processAbilityUse_room acting target aid room
    dsimp only
    rcases hq : processAbilityUse acting target aid room with ⟨a2, t2, room2, out⟩
    rw [hq] at hfields
    cases out with
    | failure e =>
      dsimp only
      split
      · exact hfinal _ _ _ hfields.1 hfields.2.1 hfields.2.2.1 hfields.2.2.2.1
      · exact hfinal _ _ _ hfields.1 hfields.2.1 hfields.2.2.1 hfields.2.2.2.1
    | ok ab dmg =>
      dsimp only
      split
      · exact hfinal _ _ _ hfields.1 hfields.2.1 hfields.2.2.1 hfields.2.2.2.1
      · exact hfinal _ _ _ hfields.1 hfields.2.1 hfields.2.2.1 hfields.2.2.2.1

theorem aget_mem {α : Type} {m : List (String × α)} {k : String} {v : α}
    (h : aget m k = some v) : (k, v) ∈ m := by
  induction m with
  | nil => exact Option.noConfusion h
  | cons e rest ih =>
    by_cases he : e.1 = k
    · rw [aget, if_pos he] at h
      injection h with h2
      have hev : e = (k, v) := by
        cases e
        simp only at he h2
        rw [he, h2]
      rw [hev]
      exact List.mem_cons_self _ _
    · rw [aget, if_neg he] at h
      exact List.mem_cons_of_mem _ (ih h)

theorem mem_aget {α : Type} {m : List (String × α)} (hnd : nodupKeys m)
    {k : String} {v : α} (h : (k, v) ∈ m) : aget m k = some v := by
  induction m with
  | nil => exact absurd h (List.not_mem_nil _)
  | cons e rest ih =>
    rcases List.mem_cons.mp h with h2 | h2
    · rw [← h2]
      simp [aget]
    · have hk : k ∈ rest.map Prod.fst := List.mem_map.mpr ⟨(k, v), h2, rfl⟩
      have he : e.1 ≠ k := by
        intro hc
        exact (List.nodup_cons.mp hnd).1 (hc ▸ hk)
      rw [aget, if_neg he]
      exact ih (List.nodup_cons.mp hnd).2 h2

theorem nodupKeys_foldl_adel {l : List String} {m : List (String × String)}
    (h : nodupKeys m) : nodupKeys (l.foldl (fun i pid => adel i pid) m) := by
  induction l generalizing m with
  | nil => exact h
  | cons k l' ih => exact ih (nodupKeys_adel _ h)

theorem nodupKeys_foldl_rooms {l : List (String × Room)} {m : List (String × String)}
    (h : nodupKeys m) :
    nodupKeys (l.foldl (fun idx e => e.2.players.foldl (fun i pid => adel i pid) idx) m) := by
  induction l generalizing m with
  | nil => exact h
  | cons e l' ih => exact ih (nodupKeys_foldl_adel h)

theorem aget_foldl_rooms_adel {l : List (String × Room)} {m : List (String × String)}
    {q : String} :
    aget (l.foldl (fun idx e => e.2.players.foldl (fun i pid => adel i pid) idx) m) q =
      if ∃ e ∈ l, q ∈ e.2.players then none else aget m q := by
  induction l generalizing m with
  | nil => simp
  | cons e l' ih =>
    rw [List.foldl_cons, ih]
    by_cases hq : q ∈ e.2.players
    · by_cases hl : ∃ e2 ∈ l', q ∈ e2.2.players
      · simp [hq, hl]
      · simp only [hl, if_neg, if_false]
        rw [aget_foldl_adel, if_pos hq]
        have : ∃ e2 ∈ e :: l', q ∈ e2.2.players := ⟨e, by simp, hq⟩
        rw [if_pos this]
    · have hiff : (∃ e2 ∈ e :: l', q ∈ e2.2.players) ↔ (∃ e2 ∈ l', q ∈ e2.2.players) := by
        constructor
        · rintro ⟨e2, he2, hm⟩
          rcases List.mem_cons.mp he2 with h2 | h2
          · exact absurd (h2 ▸ hm) hq
          · exact ⟨e2, h2, hm⟩
        · rintro ⟨e2, he2, hm⟩
          exact ⟨e2, List.mem_cons_of_mem _ he2, hm⟩
      by_cases hl : ∃ e2 ∈ l', q ∈ e2.2.players
      · simp [hl, hiff.mpr hl]
      · rw [if_neg hl, if_neg (fun h => hl (hiff.mp h))]
        rw [aget_foldl_adel, if_neg hq]

theorem cleanup_inv (st : GameState) (now rT pT : Nat)
    (hInv : RegistryInv st) : RegistryInv (cleanupInactive st now rT pT) := by
  obtain ⟨hIC, hRI, hND⟩ := hInv
  unfold cleanupInactive
  have hrooms2 : ∀ r'', aget (st.rooms.filter (fun e => ¬ now - e.2.lastActivity > rT)) r'' =
      (match aget st.rooms r'' with
       | some room => if (¬ now - room.lastActivity > rT : Prop) then some room else none
       | none => none) := by
    intro r''
    rw [aget_filter hND.1]
    cases aget st.rooms r'' with
    | none => rfl
    | some room => by_cases h : now - room.lastActivity > rT <;> simp [h]
  refine ⟨?_, ?_, ?_, ?_, ?_⟩
  · intro q r'
    rw [show aget (GameState.playerToRoom ⟨_, _, _⟩) q = aget ((st.rooms.filter (fun e => now - e.2.lastActivity > rT)).foldl (fun idx e => e.2.players.foldl (fun i pid => adel i pid) idx) st.playerToRoom) q from rfl]
    rw [aget_foldl_rooms_adel]
    constructor
    · intro h
      by_cases hev : ∃ e ∈ st.rooms.filter (fun e => now - e.2.lastActivity > rT), q ∈ e.2.players
      · rw [if_pos hev] at h
        exact Option.noConfusion h
      · rw [if_neg hev] at h
        rcases (hIC q r').mp h with ⟨room, hroom, hm⟩
        have hkeep : ¬ now - room.lastActivity > rT := by
          intro hev2
          exact hev ⟨(r', room), List.mem_filter.mpr ⟨aget_mem hroom, by simpa using hev2⟩, hm⟩
        refine ⟨room, ?_, hm⟩
        rw [show aget (GameState.rooms ⟨_, _, _⟩) r' = aget (st.rooms.filter (fun e => ¬ now - e.2.lastActivity > rT)) r' from rfl, hrooms2, hroom]
        simp [hkeep]
    · rintro ⟨room, h2, hm⟩
      rw [show aget (GameState.rooms ⟨_, _, _⟩) r' = aget (st.rooms.filter (fun e => ¬ now - e.2.lastActivity > rT)) r' from rfl, hrooms2] at h2
      cases hroom : aget st.rooms r' with
      | none => rw [hroom] at h2; exact Option.noConfusion h2
      | some room0 =>
        rw [hroom] at h2
        by_cases hkeep : now - room0.lastActivity > rT
        · simp [hkeep] at h2
        · simp only [hkeep, not_false_iff, if_pos] at h2
          injection h2 with h3
          subst h3
          have hidx := (hIC q r').mpr ⟨room0, hroom, hm⟩
          have hnoev : ¬ ∃ e ∈ st.rooms.filter (fun e => now - e.2.lastActivity > rT), q ∈ e.2.players := by
            rintro ⟨e, hef, hqe⟩
            have hee := List.mem_filter.mp hef
            have hgete : aget st.rooms e.1 = some e.2 := mem_aget hND.1 (by cases e; exact hee.1)
            have hidx2 := (hIC q e.1).mpr ⟨e.2, hgete, hqe⟩
            rw [hidx] at hidx2
            injection hidx2 with h4
            rw [← h4] at hgete
            rw [hroom] at hgete
            injection hgete with h5
            rw [← h5] at hee
            exact hkeep (by simpa using hee.2)
          rw [if_neg hnoev]
          exact hidx
  · intro r' room h'
    rw [show aget (GameState.rooms ⟨_, _, _⟩) r' = aget (st.rooms.filter (fun e => ¬ now - e.2.lastActivity > rT)) r' from rfl, hrooms2] at h'
    cases hroom : aget st.rooms r' with
    | none => rw [hroom] at h'; exact Option.noConfusion h'
    | some room0 =>
      rw [hroom] at h'
      by_cases hkeep : now - room0.lastActivity > rT
      · simp [hkeep] at h'
      · simp only [hkeep, not_false_iff, if_pos] at h'
        injection h' with h3
        subst h3
        exact hRI _ _ hroom
  · exact nodupKeys_filter _ hND.1
  · exact nodupKeys_filter _ hND.2.1
  · exact nodupKeys_foldl_rooms hND.2.2

/-! ## Key-nodup preservation (no call discipline needed) -/

theorem remove_nodup (st : GameState) (now : Nat) (p r : String)
    (h : NodupState st) : NodupState (removePlayerFromRoom st now p r).1 := by
  simp only [removePlayerFromRoom]
  split
  · exact h
  · split
    · split
      · exact ⟨nodupKeys_adel _ h.1, h.2.1, nodupKeys_adel _ h.2.2⟩
      · rw [removeFinish_eq]
        exact ⟨nodupKeys_aset _ _ h.1, h.2.1, nodupKeys_adel _ h.2.2⟩
    · rw [removeFinish_eq]
      exact ⟨nodupKeys_aset _ _ h.1, h.2.1, nodupKeys_adel _ h.2.2⟩

theorem leaveAll_nodup (st : GameState) (now : Nat) (p : String)
    (h : NodupState st) : NodupState (leaveAllRooms st now p).1 := by
  unfold leaveAllRooms
  cases aget st.playerToRoom p with
  | some roomId => exact remove_nodup st now p roomId h
  | none => exact h

theorem op_nodup (st : GameState) (op : Op)
    (h : NodupState st) : NodupState (Op.exec st op) := by
  cases op with
  | register now id pname => exact ⟨h.1, nodupKeys_aset _ _ h.2.1, h.2.2⟩
  | unregister now id =>
    show NodupState (unregisterPlayer st now id)
    unfold unregisterPlayer
    cases hidx : aget st.playerToRoom id with
    | some roomId =>
      have h1 := remove_nodup st now id roomId h
      exact ⟨h1.1, nodupKeys_adel _ h1.2.1, nodupKeys_adel _ h1.2.2⟩
    | none => exact ⟨h.1, nodupKeys_adel _ h.2.1, nodupKeys_adel _ h.2.2⟩
  | create now hostId rdata genCode =>
    show NodupState (createRoom st now hostId rdata genCode).1
    have h1 := leaveAll_nodup st now hostId h
    cases hhost : aget (leaveAllRooms st now hostId).1.players hostId with
    | none => rw [create_eq_nohost hhost]; exact h1
    | some host =>
      rw [create_eq_ok hhost]
      exact ⟨nodupKeys_aset _ _ h1.1, h1.2.1, nodupKeys_aset _ _ h1.2.2⟩
  | add now pid rid =>
    show NodupState (addPlayerToRoom st now pid rid).1
    unfold addPlayerToRoom
    split
    · exact h
    · split
      · exact h
      · split
        · exact h
        · split
          · exact h
          · have h1 := leaveAll_nodup st now pid h
            dsimp only
            split
            · exact ⟨h1.1, h1.2.1, nodupKeys_aset _ _ h1.2.2⟩
            · exact ⟨nodupKeys_aset _ _ h1.1, h1.2.1, nodupKeys_aset _ _ h1.2.2⟩
  | remove now pid rid => exact remove_nodup st now pid rid h
  | leaveAll now pid => exact leaveAll_nodup st now pid h

  | setChar now pid c =>
    show NodupState (setPlayerCharacter st now pid c).1
    unfold setPlayerCharacter
    cases hp : aget st.players pid with
    | none => rw [updatePlayerWith_eq_none hp]; exact h
    | some pl =>
      rw [updatePlayerWith_eq_some hp]
      dsimp only
      cases aget st.playerToRoom pid with
      | none => exact ⟨h.1, nodupKeys_aset _ _ h.2.1, h.2.2⟩
      | some roomId =>
        dsimp only
        cases aget st.rooms roomId with
        | none => exact ⟨h.1, nodupKeys_aset _ _ h.2.1, h.2.2⟩
        | some room => exact ⟨nodupKeys_aset _ _ h.1, nodupKeys_aset _ _ h.2.1, h.2.2⟩
  | setReady now pid b =>
    show NodupState (setPlayerReady st now pid b).1
    unfold setPlayerReady
    cases hp : aget st.players pid with
    | none => rw [updatePlayerWith_eq_none hp]; exact h
    | some pl =>
      rw [updatePlayerWith_eq_some hp]
      dsimp only
      cases aget st.playerToRoom pid with
      | none => exact ⟨h.1, nodupKeys_aset _ _ h.2.1, h.2.2⟩
      | some roomId =>
        dsimp only
        cases aget st.rooms roomId with
        | none => exact ⟨h.1, nodupKeys_aset _ _ h.2.1, h.2.2⟩
        | some room => exact ⟨nodupKeys_aset _ _ h.1, nodupKeys_aset _ _ h.2.1, h.2.2⟩
  | start now rid =>
    show NodupState (startGame st now rid).1
    unfold startGame
    split
    · exact h
    · split
      · exact h
      · split
        · exact h
        · exact ⟨nodupKeys_aset _ _ h.1, h.2.1, h.2.2⟩
  | act now pid a =>
    show NodupState (processGameAction st now pid a).1
    unfold processGameAction
    cases hidx : aget st.playerToRoom pid with
    | none => exact h
    | some roomId =>
    dsimp only
    cases hroom : aget st.rooms roomId with
    | none => exact h
    | some room =>
    dsimp only
    by_cases hst : room.status ≠ RoomStatus.inProgress
    · rw [if_pos hst]
      exact h
    rw [if_neg hst]
    by_cases hturn : room.gameData.currentTurn ≠ some pid
    · rw [if_pos hturn]
      exact h
    rw [if_neg hturn]
    cases htid : (if pid = room.hostId then room.guestId else some room.hostId) with
    | none => exact h
    | some targetId =>
    dsimp only
    cases hact : aget st.players pid with
    | none => dsimp only; exact h
    | some acting =>
    cases htgt : aget st.players targetId with
    | none => dsimp only; exact h
    | some target =>
    dsimp only
    have hfin : ∀ (room4 : Room) (a2 t2 : Player),
        NodupState ({ st with
          rooms := aset st.rooms roomId room4,
          players := aset (aset st.players pid a2) targetId t2 } : GameState) :=
      fun _ _ _ => ⟨nodupKeys_aset _ _ h.1,
        nodupKeys_aset _ _ (nodupKeys_aset _ _ h.2.1), h.2.2⟩
    cases a with
    | unknown t => exact h
    | surrender =>
      dsimp only [processSurrender]
      split
      · exact hfin _ _ _
      · exact hfin _ _ _
    | ability aid =>
      dsimp only
      rcases hq : processAbilityUse acting target aid room with ⟨a2, t2, room2, out⟩
      cases out with
      | failure e =>
        dsimp only
        split
        · exact hfin _ _ _
        · exact hfin _ _ _
      | ok ab dmg =>
        dsimp only
        split
        · exact hfin _ _ _
        · exact hfin _ _ _
  | cleanup now rT pT =>
    show NodupState (cleanupInactive st now rT pT)
    unfold cleanupInactive
    exact ⟨nodupKeys_filter _ h.1, nodupKeys_filter _ h.2.1, nodupKeys_foldl_rooms h.2.2⟩

/-- Single-step preservation of the registry invariant under the call
discipline. -/
theorem op_inv (st : GameState) (op : Op)
    (hInv : RegistryInv st) (hD : Disciplined st op) :
    RegistryInv (Op.exec st op) := by
  cases op with
  | register now id pname => exact register_inv st now id pname hInv
  | unregister now id => exact unregister_inv st now id hInv
  | create now hostId rdata genCode => exact create_inv st now hostId rdata genCode hInv hD
  | add now pid rid => exact add_inv st now pid rid hInv hD
  | remove now pid rid => exact remove_inv st now pid rid hInv hD
  | leaveAll now pid => exact leaveAll_inv st now pid hInv
  | setChar now pid c => exact setChar_inv st now pid c hInv
  | setReady now pid b => exact setReady_inv st now pid b hInv
  | start now rid => exact start_inv st now rid hInv
  | act now pid a => exact act_inv st now pid a hInv
  | cleanup now rT pT => exact cleanup_inv st now rT pT hInv

/-- The registry invariant holds along every disciplined run. -/
theorem run_inv (ops : List Op) (st : GameState)
    (hInv : RegistryInv st) (hseq : DisciplinedSeq st ops) :
    RegistryInv (execList st ops) := by
  induction ops generalizing st with
  | nil => exact hInv
  | cons op rest ih =>
    exact ih (Op.exec st op) (op_inv st op hInv hseq.1) hseq.2

theorem add_eq_detached {st : GameState} {now : Nat} {p r : String} {room : Room} {pl : Player}
    (hroom : aget st.rooms r = some room) (hp : aget st.players p = some pl)
    (hlen : ¬ room.players.length ≥ room.maxPlayers)
    (hst : room.status = RoomStatus.waiting)
    (h1 : aget (leaveAllRooms st now p).1.rooms r = none) :
    addPlayerToRoom st now p r =
      ({ (leaveAllRooms st now p).1 with
           playerToRoom := aset (leaveAllRooms st now p).1.playerToRoom p r },
       JoinResult.ok (joinedRoom now p
         { room with players := room.players.filter (fun id => id != p) })) := by
  simp [addPlayerToRoom, hroom, hp, hlen, hst, h1, joinedRoom]

/-! ## `completed` is absorbing (outside room-code reuse) -/

theorem finishedRoom_status_completed {now : Nat} {p : String} {X : Room}
    (h : X.status = RoomStatus.completed) :
    (finishedRoom now p X).status = RoomStatus.completed := by
  rw [finishedRoom_status]
  rw [h]
  simp

def CompletedAt (st : GameState) (r : String) : Prop :=
  aget st.rooms r = none ∨
  ∃ room', aget st.rooms r = some room' ∧ room'.status = RoomStatus.completed

theorem remove_preserves_completed (st : GameState) (now : Nat) (p rid : String)
    {r : String} {room : Room}
    (hroom : aget st.rooms r = some room) (hc : room.status = RoomStatus.completed) :
    CompletedAt (removePlayerFromRoom st now p rid).1 r := by
  by_cases hr : r = rid
  · subst hr
    simp only [removePlayerFromRoom, hroom]
    split
    · split
      · left
        exact aget_adel_self _ _
      · rw [removeFinish_eq]
        right
        refine ⟨_, aget_aset_self _ _ _, ?_⟩
        apply finishedRoom_status_completed
        split <;> exact hc
    · rw [removeFinish_eq]
      right
      refine ⟨_, aget_aset_self _ _ _, ?_⟩
      exact finishedRoom_status_completed hc
  · right
    refine ⟨room, ?_, hc⟩
    rw [remove_rooms_ne st now p rid r hr]
    exact hroom

theorem leaveAll_preserves_completed (st : GameState) (now : Nat) (p : String)
    {r : String} {room : Room}
    (hroom : aget st.rooms r = some room) (hc : room.status = RoomStatus.completed) :
    CompletedAt (leaveAllRooms st now p).1 r := by
  unfold leaveAllRooms
  cases aget st.playerToRoom p with
  | some roomId => exact remove_preserves_completed st now p roomId hroom hc
  | none => exact Or.inr ⟨room, hroom, hc⟩

/-- One step: a `completed` room code stays completed or disappears, for
every operation, as long as `create` codes are fresh. -/
theorem op_preserves_completed (st : GameState) (op : Op) {r : String} {room : Room}
    (hroom : aget st.rooms r = some room) (hc : room.status = RoomStatus.completed)
    (hF : CreateFresh st op) (hND : NodupState st) :
    CompletedAt (Op.exec st op) r := by
  cases op with
  | register now id pname => exact Or.inr ⟨room, hroom, hc⟩
  | unregister now id =>
    show CompletedAt { (match aget st.playerToRoom id with
        | some roomId => (removePlayerFromRoom st now id roomId).1
        | none => st) with
      players := adel (match aget st.playerToRoom id with
        | some roomId => (removePlayerFromRoom st now id roomId).1
        | none => st).players id,
      playerToRoom := adel (match aget st.playerToRoom id with
        | some roomId => (removePlayerFromRoom st now id roomId).1
        | none => st).playerToRoom id } r
    cases aget st.playerToRoom id with
    | some roomId => exact remove_preserves_completed st now id roomId hroom hc
    | none => exact Or.inr ⟨room, hroom, hc⟩
  | create now hostId rdata genCode =>
    show CompletedAt (createRoom st now hostId rdata genCode).1 r
    have hrc : r ≠ Op.createCode rdata genCode := by
      intro h
      have hF2 : aget st.rooms (Op.createCode rdata genCode) = none := hF
      rw [← h, hroom] at hF2
      exact Option.noConfusion hF2
    have hLA := leaveAll_preserves_completed st now hostId hroom hc
    cases hhost : aget (leaveAllRooms st now hostId).1.players hostId with
    | none =>
      rw [create_eq_nohost hhost]
      exact hLA
    | some host =>
      rw [create_eq_ok hhost]
      rcases hLA with h1 | ⟨room', h1, h2⟩
      · left
        show aget (aset (leaveAllRooms st now hostId).1.rooms (Op.createCode rdata genCode) _) r = none
        rw [aget_aset_ne _ _ _ _ hrc]
        exact h1
      · right
        refine ⟨room', ?_, h2⟩
        show aget (aset (leaveAllRooms st now hostId).1.rooms (Op.createCode rdata genCode) _) r = some room'
        rw [aget_aset_ne _ _ _ _ hrc]
        exact h1
  | add now pid rid =>
    show CompletedAt (addPlayerToRoom st now pid rid).1 r
    cases hroom2 : aget st.rooms rid with
    | none =>
      rw [add_eq_noroom hroom2]
      exact Or.inr ⟨room, hroom, hc⟩
    | some room2 =>
    cases hp2 : aget st.players pid with
    | none =>
      rw [add_eq_noplayer hroom2 hp2]
      exact Or.inr ⟨room, hroom, hc⟩
    | some pl =>
    by_cases hlen : room2.players.length ≥ room2.maxPlayers
    · rw [add_eq_full hroom2 hp2 hlen]
      exact Or.inr ⟨room, hroom, hc⟩
    · by_cases hst : room2.status = RoomStatus.waiting
      · have hr : r ≠ rid := by
          intro h
          rw [← h, hroom] at hroom2
          injection hroom2 with h2
          rw [← h2] at hst
          rw [hc] at hst
          exact RoomStatus.noConfusion hst
        have hLA := leaveAll_preserves_completed st now pid hroom hc
        cases h1 : aget (leaveAllRooms st now pid).1.rooms rid with
        | none =>
          rw [add_eq_detached hroom2 hp2 hlen hst h1]
          exact hLA
        | some roomMid =>
          rw [add_eq_join hroom2 hp2 hlen hst h1]
          rcases hLA with h2 | ⟨room', h2, h3⟩
          · left
            show aget (aset (leaveAllRooms st now pid).1.rooms rid _) r = none
            rw [aget_aset_ne _ _ _ _ hr]
            exact h2
          · right
            refine ⟨room', ?_, h3⟩
            show aget (aset (leaveAllRooms st now pid).1.rooms rid _) r = some room'
            rw [aget_aset_ne _ _ _ _ hr]
            exact h2
      · rw [add_eq_notwaiting hroom2 hp2 hlen hst]
        exact Or.inr ⟨room, hroom, hc⟩
  | remove now pid rid => exact remove_preserves_completed st now pid rid hroom hc
  | leaveAll now pid => exact leaveAll_preserves_completed st now pid hroom hc
  | setChar now pid c =>
    show CompletedAt (setPlayerCharacter st now pid c).1 r
    unfold setPlayerCharacter
    cases hp : aget st.players pid with
    | none =>
      rw [updatePlayerWith_eq_none hp]
      exact Or.inr ⟨room, hroom, hc⟩
    | some pl =>
      rw [updatePlayerWith_eq_some hp]
      dsimp only
      cases hidx : aget st.playerToRoom pid with
      | none => exact Or.inr ⟨room, hroom, hc⟩
      | some roomId =>
        dsimp only
        cases hroom2 : aget st.rooms roomId with
        | none => exact Or.inr ⟨room, hroom, hc⟩
        | some room2 =>
          dsimp only
          by_cases hr : r = roomId
          · subst hr
            rw [hroom] at hroom2
            injection hroom2 with h2
            right
            refine ⟨_, aget_aset_self _ _ _, ?_⟩
            show room2.status = RoomStatus.completed
            rw [← h2]
            exact hc
          · right
            refine ⟨room, ?_, hc⟩
            show aget (aset st.rooms roomId _) r = some room
            rw [aget_aset_ne _ _ _ _ hr]
            exact hroom
  | setReady now pid b =>
    show CompletedAt (setPlayerReady st now pid b).1 r
    unfold setPlayerReady
    cases hp : aget st.players pid with
    | none =>
      rw [updatePlayerWith_eq_none hp]
      exact Or.inr ⟨room, hroom, hc⟩
    | some pl =>
      rw [updatePlayerWith_eq_some hp]
      dsimp only
      cases hidx : aget st.playerToRoom pid with
      | none => exact Or.inr ⟨room, hroom, hc⟩
      | some roomId =>
        dsimp only
        cases hroom2 : aget st.rooms roomId with
        | none => exact Or.inr ⟨room, hroom, hc⟩
        | some room2 =>
          dsimp only
          by_cases hr : r = roomId
          · subst hr
            rw [hroom] at hroom2
            injection hroom2 with h2
            right
            refine ⟨_, aget_aset_self _ _ _, ?_⟩
            show (if _ then { room2 with status := RoomStatus.ready } else room2).status =
              RoomStatus.completed
            split
            next hcond =>
              exfalso
              have hw := hcond.2
              rw [← h2, hc] at hw
              exact RoomStatus.noConfusion hw
            next => rw [← h2]; exact hc
          · right
            refine ⟨room, ?_, hc⟩
            show aget (aset st.rooms roomId _) r = some room
            rw [aget_aset_ne _ _ _ _ hr]
            exact hroom
  | start now rid =>
    show CompletedAt (startGame st now rid).1 r
    unfold startGame
    cases hroom2 : aget st.rooms rid with
    | none => exact Or.inr ⟨room, hroom, hc⟩
    | some room2 =>
      dsimp only
      by_cases hst : room2.status ≠ RoomStatus.ready
      · rw [if_pos hst]
        exact Or.inr ⟨room, hroom, hc⟩
      · rw [if_neg hst]
        have hr : r ≠ rid := by
          intro h
          rw [← h, hroom] at hroom2
          injection hroom2 with h2
          rw [← h2, hc] at hst
          exact hst (fun hcon => RoomStatus.noConfusion hcon)
        by_cases hlen : room2.players.length ≠ 2
        · rw [if_pos hlen]
          exact Or.inr ⟨room, hroom, hc⟩
        · rw [if_neg hlen]
          right
          refine ⟨room, ?_, hc⟩
          show aget (aset st.rooms rid _) r = some room
          rw [aget_aset_ne _ _ _ _ hr]
          exact hroom
  | act now pid a =>
    show CompletedAt (processGameAction st now pid a).1 r
    unfold processGameAction
    cases hidx : aget st.playerToRoom pid with
    | none => exact Or.inr ⟨room, hroom, hc⟩
    | some roomId =>
    dsimp only
    cases hroom2 : aget st.rooms roomId with
    | none => exact Or.inr ⟨room, hroom, hc⟩
    | some room2 =>
    dsimp only
    by_cases hst : room2.status ≠ RoomStatus.inProgress
    · rw [if_pos hst]
      exact Or.inr ⟨room, hroom, hc⟩
    rw [if_neg hst]
    have hr : r ≠ roomId := by
      intro h
      rw [← h, hroom] at hroom2
      injection hroom2 with h2
      rw [← h2, hc] at hst
      exact hst (fun hcon => RoomStatus.noConfusion hcon)
    by_cases hturn : room2.gameData.currentTurn ≠ some pid
    · rw [if_pos hturn]
      exact Or.inr ⟨room, hroom, hc⟩
    rw [if_neg hturn]
    cases htid : (if pid = room2.hostId then room2.guestId else some room2.hostId) with
    | none => exact Or.inr ⟨room, hroom, hc⟩
    | some targetId =>
    dsimp only
    cases hact : aget st.players pid with
    | none => dsimp only; exact Or.inr ⟨room, hroom, hc⟩
    | some acting =>
    cases htgt : aget st.players targetId with
    | none => dsimp only; exact Or.inr ⟨room, hroom, hc⟩
    | some target =>
    dsimp only
    have hfin : ∀ (room4 : Room) (a2 t2 : Player),
        CompletedAt ({ st with
          rooms := aset st.rooms roomId room4,
          players := aset (aset st.players pid a2) targetId t2 } : GameState) r := by
      intro room4 a2 t2
      right
      refine ⟨room, ?_, hc⟩
      show aget (aset st.rooms roomId room4) r = some room
      rw [aget_aset_ne _ _ _ _ hr]
      exact hroom
    cases a with
    | unknown t => exact Or.inr ⟨room, hroom, hc⟩
    | surrender =>
      dsimp only [processSurrender]
      split
      · exact hfin _ _ _
      · exact hfin _ _ _
    | ability aid =>
      dsimp only
      rcases hq : processAbilityUse acting target aid room2 with ⟨a2, t2, roomD, out⟩
      cases out with
      | failure e =>
        dsimp only
        split
        · exact hfin _ _ _
        · exact hfin _ _ _
      | ok ab dmg =>
        dsimp only
        split
        · exact hfin _ _ _
        · exact hfin _ _ _
  | cleanup now rT pT =>
    show CompletedAt (cleanupInactive st now rT pT) r
    unfold cleanupInactive
    have h2 : aget (st.rooms.filter (fun e => ¬ now - e.2.lastActivity > rT)) r =
        (match aget st.rooms r with
         | some room0 => if (¬ now - room0.lastActivity > rT : Prop) then some room0 else none
         | none => none) := by
      rw [aget_filter hND.1]
      cases aget st.rooms r with
      | none => rfl
      | some room0 => by_cases hx : now - room0.lastActivity > rT <;> simp [hx]
    by_cases hkeep : now - room.lastActivity > rT
    · left
      show aget (st.rooms.filter (fun e => ¬ now - e.2.lastActivity > rT)) r = none
      rw [h2, hroom]
      simp [hkeep]
    · right
      refine ⟨room, ?_, hc⟩
      show aget (st.rooms.filter (fun e => ¬ now - e.2.lastActivity > rT)) r = some room
      rw [h2, hroom]
      simp [hkeep]

/-! ## Concrete fixtures used by witnesses and counterexamples -/

def abFire : Ability := { id := "fire", name := "Fireball", manaCost := 10, damage := 20 }

def chHost : Character :=
  { id := "c1", name := "Mage", health := 100, mana := 10, abilities := [abFire] }

def chGuest : Character :=
  { id := "c2", name := "Knight", health := 100, mana := 10, abilities := [] }

/-- Scenario A prefix: two players register, the host creates room `A`, the
guest joins, both pick characters and ready up, the game starts. -/
def setupOps : List Op :=
  [ Op.register 1 "h" (some "Host"),
    Op.register 2 "g" (some "Guest"),
    Op.create 3 "h" { roomId := some "A", name := some "Arena", isPrivate := false } "ZZZZZZ",
    Op.add 4 "g" "A",
    Op.setChar 5 "h" chHost,
    Op.setChar 6 "g" chGuest,
    Op.setReady 7 "h" true,
    Op.setReady 8 "g" true,
    Op.start 9 "A" ]

def stReady : GameState := execList emptyState setupOps

/-! ## Claim theorems -/

/-- C9: the spec says a chat message is either silently ignored or
broadcast, never an uncaught fault.  The code reads the unbound module
identifier `gameState`, so every non-blank string message raises a
`ReferenceError` — the code, not the claim, is at fault. -/
theorem chat_message_faults_on_valid_input :
    handleChatMessage "s1" { roomId := some "R", message := some (JsVal.jstr "hi") } =
      ChatOutcome.fault "gameState is not defined" := by decide

/-- C1 counterexample: `setPlayerCharacter` on a registered player who is in
no room returns the tagged failure `Player not in a room` yet has already
overwritten the player's character, stats and readiness — the state after
the failing call differs from the state before it. -/
theorem error_leaves_state_changed_setPlayerCharacter :
    (setPlayerCharacter (registerPlayer emptyState 1 "p" (some "P")).1 2 "p" chHost).2 =
      CharResult.failure "Player not in a room" ∧
    (setPlayerCharacter (registerPlayer emptyState 1 "p" (some "P")).1 2 "p" chHost).1 ≠
      (registerPlayer emptyState 1 "p" (some "P")).1 := by
  refine ⟨by decide, ?_⟩
  intro h
  have h2 := congrArg (fun st => aget st.players "p") h
  revert h2
  decide

/-- C1 (amended): a tagged failure from `addPlayerToRoom`,
`removePlayerFromRoom` or `startGame` leaves the entire registry state —
rooms, players and reverse index — exactly as it was. -/
theorem error_leaves_state_unchanged (st : GameState) (now : Nat) (p r : String)
    (e : String) :
    ((addPlayerToRoom st now p r).2 = JoinResult.failure e →
      (addPlayerToRoom st now p r).1 = st) ∧
    ((removePlayerFromRoom st now p r).2 = RemoveResult.failure e →
      (removePlayerFromRoom st now p r).1 = st) ∧
    ((startGame st now r).2 = StartResult.failure e →
      (startGame st now r).1 = st) := by
  refine ⟨?_, ?_, ?_⟩
  · intro h
    cases hroom : aget st.rooms r with
    | none => rw [add_eq_noroom hroom]
    | some room =>
      cases hp : aget st.players p with
      | none => rw [add_eq_noplayer hroom hp]
      | some pl =>
        by_cases hlen : room.players.length ≥ room.maxPlayers
        · rw [add_eq_full hroom hp hlen]
        · by_cases hst : room.status = RoomStatus.waiting
          · exfalso
            cases h1 : aget (leaveAllRooms st now p).1.rooms r with
            | none =>
              rw [add_eq_detached hroom hp hlen hst h1] at h
              exact JoinResult.noConfusion h
            | some room2 =>
              rw [add_eq_join hroom hp hlen hst h1] at h
              exact JoinResult.noConfusion h
          · rw [add_eq_notwaiting hroom hp hlen hst]
  · intro h
    cases hroom : aget st.rooms r with
    | none => rw [remove_eq_notfound hroom]
    | some room =>
      exfalso
      revert h
      simp only [removePlayerFromRoom, hroom]
      split
      · split
        · intro h
          exact RemoveResult.noConfusion h
        · rw [removeFinish_eq]
          intro h
          exact RemoveResult.noConfusion h
      · rw [removeFinish_eq]
        intro h
        exact RemoveResult.noConfusion h
  · intro h
    cases hroom : aget st.rooms r with
    | none =>
      unfold startGame
      rw [hroom]
    | some room =>
      unfold startGame
      rw [hroom]
      dsimp only
      by_cases hst : room.status ≠ RoomStatus.ready
      · rw [if_pos hst]
      · rw [if_neg hst]
        by_cases hlen : room.players.length ≠ 2
        · rw [if_pos hlen]
        · exfalso
          revert h
          unfold startGame
          rw [hroom]
          dsimp only
          rw [if_neg hst, if_neg hlen]
          intro h
          exact StartResult.noConfusion h

/-- C1 witness: the amended theorem applied at failing concrete calls on the
empty registry. -/
theorem error_leaves_state_unchanged_witness :
    (addPlayerToRoom emptyState 0 "p" "r").1 = emptyState ∧
    (removePlayerFromRoom emptyState 0 "p" "r").1 = emptyState ∧
    (startGame emptyState 0 "r").1 = emptyState :=
  ⟨(error_leaves_state_unchanged emptyState 0 "p" "r" "Room not found").1 (by decide),
   (error_leaves_state_unchanged emptyState 0 "p" "r" "Room not found").2.1 (by decide),
   (error_leaves_state_unchanged emptyState 0 "p" "r" "Room not found").2.2 (by decide)⟩

theorem finishedRoom_inProgress {now : Nat} {p : String} {X : Room}
    (h : X.status = RoomStatus.inProgress) :
    (finishedRoom now p X).status = RoomStatus.completed ∧
    (finishedRoom now p X).gameData.endTime = some now ∧
    (finishedRoom now p X).gameData.winner = X.players.head? := by
  have h1 : (if X.guestId = some p then { X with guestId := none } else X).status =
      RoomStatus.inProgress := by
    split <;> exact h
  have h2 : (if X.guestId = some p then { X with guestId := none } else X).players =
      X.players := by
    split <;> rfl
  simp only [finishedRoom]
  rw [if_pos h1]
  exact ⟨rfl, rfl, congrArg List.head? h2⟩

/-- C5: removing either occupant of an in-progress two-player room ends the
match in the same call — status `completed`, end timestamp set, and the
remaining occupant declared winner (host wins when the guest departs, the
promoted guest wins when the host departs). -/
theorem forfeit_on_departure (st : GameState) (now : Nat) (r h g : String) (room : Room)
    (hroom : aget st.rooms r = some room) (hst : room.status = RoomStatus.inProgress)
    (hpl : room.players = [h, g]) (hh : room.hostId = h) (hg : room.guestId = some g)
    (hne : h ≠ g) :
    (∃ room2, (removePlayerFromRoom st now g r).2 = RemoveResult.okRoom room2 ∧
       aget (removePlayerFromRoom st now g r).1.rooms r = some room2 ∧
       room2.status = RoomStatus.completed ∧ room2.gameData.endTime = some now ∧
       room2.gameData.winner = some h) ∧
    (∃ room2, (removePlayerFromRoom st now h r).2 = RemoveResult.okRoom room2 ∧
       aget (removePlayerFromRoom st now h r).1.rooms r = some room2 ∧
       room2.status = RoomStatus.completed ∧ room2.gameData.endTime = some now ∧
       room2.gameData.winner = some g) := by
  constructor
  · have hgh : g ≠ room.hostId := by
      rw [hh]
      exact fun hc => hne hc.symm
    have hfil : room.players.filter (fun id => id != g) = [h] := by
      rw [hpl]
      have hb : (h != g) = true := by simpa [bne_iff_ne] using hne
      simp [List.filter, hb]
    rw [remove_eq_nonhost hroom hgh, hfil, removeFinish_eq]
    have hX : ({ room with players := [h] } : Room).status = RoomStatus.inProgress := hst
    have hfr := @finishedRoom_inProgress now g _ hX
    exact ⟨_, rfl, aget_aset_self _ _ _, hfr.1, hfr.2.1, by rw [hfr.2.2]; rfl⟩
  · have hfil : room.players.filter (fun id => id != h) = [g] := by
      rw [hpl]
      have hb : (g != h) = true := by simpa [bne_iff_ne] using hne.symm
      simp [List.filter, hb]
    rw [remove_eq_transfer hroom hfil hh.symm, if_pos (by rw [hg]), removeFinish_eq]
    have hX : ({ room with players := [g], hostId := g, guestId := none } : Room).status =
        RoomStatus.inProgress := hst
    have hfr := @finishedRoom_inProgress now h _ hX
    exact ⟨_, rfl, aget_aset_self _ _ _, hfr.1, hfr.2.1, by rw [hfr.2.2]; rfl⟩

/-- C5 witness: on the started Scenario A state, the guest leaving makes the
host win by forfeit, and the host leaving makes the guest win. -/
theorem forfeit_on_departure_witness :
    (∃ room2, (removePlayerFromRoom stReady 20 "g" "A").2 = RemoveResult.okRoom room2 ∧
       aget (removePlayerFromRoom stReady 20 "g" "A").1.rooms "A" = some room2 ∧
       room2.status = RoomStatus.completed ∧ room2.gameData.endTime = some 20 ∧
       room2.gameData.winner = some "h") ∧
    (∃ room2, (removePlayerFromRoom stReady 20 "h" "A").2 = RemoveResult.okRoom room2 ∧
       aget (removePlayerFromRoom stReady 20 "h" "A").1.rooms "A" = some room2 ∧
       room2.status = RoomStatus.completed ∧ room2.gameData.endTime = some 20 ∧
       room2.gameData.winner = some "g") := by
  have hroom : ∃ room, aget stReady.rooms "A" = some room ∧ room.status = RoomStatus.inProgress ∧
      room.players = ["h", "g"] ∧ room.hostId = "h" ∧ room.guestId = some "g" := by decide
  rcases hroom with ⟨room, h1, h2, h3, h4, h5⟩
  exact forfeit_on_departure stReady 20 "A" "h" "g" room h1 h2 h3 h4 h5 (by decide)

/-- C10: removing a player who is NOT on the roster of an in-progress room
still "succeeds": the roster is untouched, the player's reverse-index entry
is deleted, and the room is force-completed with `roster[0]` (the host)
declared winner — a non-member removal terminates someone else's game. -/
theorem nonmember_removal_completes_game (st : GameState) (now : Nat)
    (p r h g : String) (room : Room)
    (hroom : aget st.rooms r = some room) (hst : room.status = RoomStatus.inProgress)
    (hpl : room.players = [h, g]) (hh : room.hostId = h) (hg : room.guestId = some g)
    (hp1 : p ≠ h) (hp2 : p ≠ g) :
    ∃ room2, (removePlayerFromRoom st now p r).2 = RemoveResult.okRoom room2 ∧
      aget (removePlayerFromRoom st now p r).1.rooms r = some room2 ∧
      room2.players = [h, g] ∧
      room2.status = RoomStatus.completed ∧
      room2.gameData.endTime = some now ∧
      room2.gameData.winner = some h ∧
      aget (removePlayerFromRoom st now p r).1.playerToRoom p = none := by
  have hph : p ≠ room.hostId := by
    rw [hh]
    exact hp1
  have hfil : room.players.filter (fun id => id != p) = room.players := by
    refine filter_ne_of_not_mem ?_
    rw [hpl]
    intro hmem
    rcases (by simpa using hmem : p = h ∨ p = g) with hc | hc
    · exact hp1 hc
    · exact hp2 hc
  rw [remove_eq_nonhost hroom hph, hfil, room_set_players_self, removeFinish_eq]
  have hfr := @finishedRoom_inProgress now p room hst
  refine ⟨_, rfl, aget_aset_self _ _ _, ?_, hfr.1, hfr.2.1, ?_, ?_⟩
  · rw [finishedRoom_players, hpl]
  · rw [hfr.2.2, hpl]
    rfl
  · exact aget_adel_self _ _

/-- C10 witness: an unrelated id removed from the started Scenario A room
force-completes it in favour of the host. -/
theorem nonmember_removal_witness :
    ∃ room2, (removePlayerFromRoom stReady 20 "intruder" "A").2 = RemoveResult.okRoom room2 ∧
      aget (removePlayerFromRoom stReady 20 "intruder" "A").1.rooms "A" = some room2 ∧
      room2.players = ["h", "g"] ∧
      room2.status = RoomStatus.completed ∧
      room2.gameData.endTime = some 20 ∧
      room2.gameData.winner = some "h" ∧
      aget (removePlayerFromRoom stReady 20 "intruder" "A").1.playerToRoom "intruder" = none := by
  have hroom : ∃ room, aget stReady.rooms "A" = some room ∧ room.status = RoomStatus.inProgress ∧
      room.players = ["h", "g"] ∧ room.hostId = "h" ∧ room.guestId = some "g" := by decide
  rcases hroom with ⟨room, h1, h2, h3, h4, h5⟩
  exact nonmember_removal_completes_game stReady 20 "intruder" "A" "h" "g" room
    h1 h2 h3 h4 h5 (by decide) (by decide)

def roomW : Room :=
  { id := "W", name := "W", hostId := "a", guestId := none,
    status := RoomStatus.waiting, isPrivate := false, maxPlayers := 2,
    players := ["a"], spectators := [],
    gameData := { turnCount := 0, currentTurn := none, battleLog := [],
                  startTime := none, endTime := none, winner := none },
    createdAt := 0, lastActivity := 0 }

def pA : Player :=
  { id := "a", name := "A", isConnected := true, character := some chHost,
    isReady := true, health := 100, maxHealth := 100, mana := 10, maxMana := 10,
    lastActive := 0 }

def pB : Player :=
  { id := "b", name := "B", isConnected := true, character := some chGuest,
    isReady := true, health := 100, maxHealth := 100, mana := 10, maxMana := 10,
    lastActive := 0 }

/-- C6: the mana check is strict (`mana < cost` fails, so `mana = cost`
succeeds); a successful ability deducts the cost and applies the flat
damage, both clamped at zero, and appends the two battle-log lines.  The
second conjunct replays Scenario B on the started Scenario A state: the
host's 10-cost / 20-damage ability at exactly 10 mana succeeds, leaving
host mana 0, guest health 80, the turn with the guest and turnCount 2. -/
theorem ability_use_arithmetic :
    (∀ (acting target : Player) (aid : String) (room : Room) (a2 t2 : Player)
        (room2 : Room) (ab : Ability) (dmg : Int),
      processAbilityUse acting target aid room = (a2, t2, room2, AbilityOutcome.ok ab dmg) →
        ¬ acting.mana < ab.manaCost ∧
        a2.mana = max 0 (acting.mana - ab.manaCost) ∧ 0 ≤ a2.mana ∧
        t2.health = max 0 (target.health - ab.damage) ∧ 0 ≤ t2.health ∧
        dmg = ab.damage ∧
        room2.gameData.battleLog = room.gameData.battleLog ++
          [acting.name ++ " used " ++ ab.name ++ "!",
           target.name ++ " took " ++ toString ab.damage ++ " damage!"]) ∧
    ((processGameAction stReady 10 "h" (GAction.ability "fire")).2.success = true ∧
     (aget (processGameAction stReady 10 "h" (GAction.ability "fire")).1.players "h").map
        Player.mana = some 0 ∧
     (aget (processGameAction stReady 10 "h" (GAction.ability "fire")).1.players "g").map
        Player.health = some 80 ∧
     (aget (processGameAction stReady 10 "h" (GAction.ability "fire")).1.rooms "A").map
        (fun rm => rm.gameData.currentTurn) = some (some "g") ∧
     (aget (processGameAction stReady 10 "h" (GAction.ability "fire")).1.rooms "A").map
        (fun rm => rm.gameData.turnCount) = some 2) := by
  constructor
  · intro acting target aid room a2 t2 room2 ab dmg h
    unfold processAbilityUse at h
    cases hfind : acting.character.bind
        (fun c => c.abilities.find? (fun a => a.id == aid)) with
    | none =>
      rw [hfind] at h
      simp at h
    | some ab0 =>
      rw [hfind] at h
      dsimp only at h
      by_cases hmana : acting.mana < ab0.manaCost
      · rw [if_pos hmana] at h
        simp at h
      · rw [if_neg hmana] at h
        simp only [Prod.mk.injEq, AbilityOutcome.ok.injEq] at h
        obtain ⟨ha2, ht2, hroom2, hab, hdmg⟩ := h
        subst hab
        refine ⟨hmana, ?_, ?_, ?_, ?_, ?_, ?_⟩
        · rw [← ha2]
        · rw [← ha2]
          exact le_max_left _ _
        · rw [← ht2]
        · rw [← ht2]
          exact le_max_left _ _
        · rw [← hdmg]
        · rw [← hroom2]
  · exact ⟨by decide, by decide, by decide, by decide, by decide⟩

/-- C6 witness: the general part applied to the concrete 10-mana host
against a 100-health target with the 10-cost / 20-damage ability. -/
theorem ability_use_arithmetic_witness :
    ¬ pA.mana < abFire.manaCost ∧
    (processAbilityUse pA pB "fire" roomW).1.mana = max 0 (pA.mana - abFire.manaCost) ∧
    (processAbilityUse pA pB "fire" roomW).2.1.health = max 0 (pB.health - abFire.damage) := by
  have h := ability_use_arithmetic.1 pA pB "fire" roomW
    (processAbilityUse pA pB "fire" roomW).1
    (processAbilityUse pA pB "fire" roomW).2.1
    (processAbilityUse pA pB "fire" roomW).2.2.1
    abFire 20 (by decide)
  exact ⟨h.1, h.2.1, h.2.2.2.1⟩

/-- A successful `processGameAction` on a well-formed in-progress room
either force-completes the room with `turnCount` untouched, or hands the
turn to the other occupant with `turnCount` bumped by exactly one. -/
theorem act_success_spec (st : GameState) (now : Nat) (p : String) (a : GAction)
    (rid : String) (room : Room) (h g : String)
    (hidx : aget st.playerToRoom p = some rid)
    (hroom : aget st.rooms rid = some room)
    (hst : room.status = RoomStatus.inProgress)
    (hpl : room.players = [h, g]) (hh : room.hostId = h) (hg : room.guestId = some g)
    (hne : h ≠ g) (hturn : room.gameData.currentTurn = some p)
    (hsucc : (processGameAction st now p a).2.success = true) :
    ∃ room2, aget (processGameAction st now p a).1.rooms rid = some room2 ∧
      ((room2.status = RoomStatus.completed ∧
        room2.gameData.turnCount = room.gameData.turnCount) ∨
       (room2.status = RoomStatus.inProgress ∧
        room2.gameData.turnCount = room.gameData.turnCount + 1 ∧
        room2.gameData.currentTurn = some (if p = h then g else h) ∧
        room2.gameData.currentTurn ≠ some p)) := by
  have hst' : ¬ room.status ≠ RoomStatus.inProgress := by
    rw [hst]
    simp
  have hturn' : ¬ room.gameData.currentTurn ≠ some p := by
    rw [hturn]
    simp
  have htgtOpt : (if p = room.hostId then room.guestId else some room.hostId) =
      some (if p = h then g else h) := by
    rw [hh, hg]
    by_cases hph : p = h <;> simp [hph]
  unfold processGameAction at hsucc ⊢
  rw [hidx] at hsucc ⊢
  dsimp only at hsucc ⊢
  rw [hroom] at hsucc ⊢
  dsimp only at hsucc ⊢
  rw [if_neg hst', if_neg hturn', htgtOpt] at hsucc ⊢
  dsimp only at hsucc ⊢
  cases hact : aget st.players p with
  | none =>
    rw [hact] at hsucc
    dsimp only [actionFail] at hsucc
    exact Bool.noConfusion hsucc
  | some acting =>
  rw [hact] at hsucc
  cases htgt : aget st.players (if p = h then g else h) with
  | none =>
    rw [htgt] at hsucc
    dsimp only [actionFail] at hsucc
    exact Bool.noConfusion hsucc
  | some target =>
  rw [htgt] at hsucc
  dsimp only at hsucc ⊢
  cases a with
  | unknown t =>
    dsimp only [actionFail] at hsucc
    exact Bool.noConfusion hsucc
  | surrender =>
    dsimp only [processSurrender] at hsucc ⊢
    rw [if_pos (Or.inl (by exact le_refl 0))] at hsucc ⊢
    exact ⟨_, aget_aset_self _ _ _, Or.inl ⟨rfl, rfl⟩⟩
  | ability aid =>
    have hfields := processAbilityUse_room acting target aid room
    dsimp only at hsucc ⊢
    rcases hq : processAbilityUse acting target aid room with ⟨a2, t2, roomD, out⟩
    rw [hq] at hsucc hfields
    cases out with
    | failure e =>
      dsimp only at hsucc ⊢
      split at hsucc
      · dsimp only at hsucc
        exact Bool.noConfusion hsucc
      · dsimp only at hsucc
        exact Bool.noConfusion hsucc
    | ok ab dmg =>
      dsimp only at hsucc ⊢
      by_cases hover : a2.health ≤ 0 ∨ t2.health ≤ 0
      · rw [if_pos hover]
        refine ⟨_, aget_aset_self _ _ _, Or.inl ⟨rfl, ?_⟩⟩
        exact hfields.2.2.2.2.2.2
      · rw [if_neg hover]
        refine ⟨_, aget_aset_self _ _ _, Or.inr ⟨?_, ?_, ?_, ?_⟩⟩
        · show roomD.status = RoomStatus.inProgress
          rw [hfields.2.2.2.2.1]
          exact hst
        · show roomD.gameData.turnCount + 1 = room.gameData.turnCount + 1
          rw [hfields.2.2.2.2.2.2]
        · show (if roomD.gameData.currentTurn = some roomD.hostId
              then roomD.guestId else some roomD.hostId) = some (if p = h then g else h)
          rw [hfields.2.2.2.2.2.1, hfields.2.1, hfields.2.2.1, hturn, hh, hg]
          by_cases hph : p = h
          · rw [if_pos (by rw [hph]), if_pos hph]
          · rw [if_neg (fun hc => hph (Option.some.inj hc)), if_neg hph]
        · show (if roomD.gameData.currentTurn = some roomD.hostId
              then roomD.guestId else some roomD.hostId) ≠ some p
          rw [hfields.2.2.2.2.2.1, hfields.2.1, hfields.2.2.1, hturn, hh, hg]
          by_cases hph : p = h
          · rw [if_pos (by rw [hph])]
            intro hc
            exact hne (((Option.some.inj hc).trans hph).symm)
          · rw [if_neg (fun hc => hph (Option.some.inj hc))]
            intro hc
            exact hph (Option.some.inj hc).symm

/-- No `processGameAction` call changes any room's `turnCount` by anything
other than 0 or +1. -/
theorem act_turnCount_delta (st : GameState) (now : Nat) (p : String) (a : GAction)
    (r : String) (room room2 : Room)
    (hroom : aget st.rooms r = some room)
    (hroom2 : aget (processGameAction st now p a).1.rooms r = some room2) :
    room2.gameData.turnCount = room.gameData.turnCount ∨
    room2.gameData.turnCount = room.gameData.turnCount + 1 := by
  have base : aget st.rooms r = some room2 →
      room2.gameData.turnCount = room.gameData.turnCount ∨
      room2.gameData.turnCount = room.gameData.turnCount + 1 := by
    intro h2
    rw [hroom] at h2
    injection h2 with h3
    exact Or.inl (by rw [← h3])
  unfold processGameAction at hroom2
  cases hidx : aget st.playerToRoom p with
  | none =>
    rw [hidx] at hroom2
    exact base hroom2
  | some roomId =>
  rw [hidx] at hroom2
  dsimp only at hroom2
  cases hroomId : aget st.rooms roomId with
  | none =>
    rw [hroomId] at hroom2
    exact base hroom2
  | some roomX =>
  rw [hroomId] at hroom2
  dsimp only at hroom2
  by_cases hst : roomX.status ≠ RoomStatus.inProgress
  · rw [if_pos hst] at hroom2
    exact base hroom2
  rw [if_neg hst] at hroom2
  by_cases hturn : roomX.gameData.currentTurn ≠ some p
  · rw [if_pos hturn] at hroom2
    exact base hroom2
  rw [if_neg hturn] at hroom2
  cases htid : (if p = roomX.hostId then roomX.guestId else some roomX.hostId) with
  | none =>
    rw [htid] at hroom2
    exact base hroom2
  | some targetId =>
  rw [htid] at hroom2
  dsimp only at hroom2
  cases hact : aget st.players p with
  | none =>
    rw [hact] at hroom2
    exact base hroom2
  | some acting =>
  rw [hact] at hroom2
  cases htgt : aget st.players targetId with
  | none =>
    rw [htgt] at hroom2
    dsimp only at hroom2
    exact base hroom2
  | some target =>
  rw [htgt] at hroom2
  dsimp only at hroom2
  by_cases hr : r = roomId
  · subst hr
    have hXr : roomX = room := by
      rw [hroom] at hroomId
      injection hroomId with h3
      rw [h3]
    cases a with
    | unknown t =>
      dsimp only at hroom2
      exact base hroom2
    | surrender =>
      dsimp only [processSurrender] at hroom2
      rw [if_pos (Or.inl (by exact le_refl 0))] at hroom2
      rw [aget_aset_self] at hroom2
      injection hroom2 with h3
      left
      rw [← h3, ← hXr]
    | ability aid =>
      have hfields := processAbilityUse_room acting target aid roomX
      dsimp only at hroom2
      rcases hq : processAbilityUse acting target aid roomX with ⟨a2, t2, roomD, out⟩
      rw [hq] at hroom2 hfields
      have hDX : roomD.gameData.turnCount = room.gameData.turnCount := by
        rw [hfields.2.2.2.2.2.2, hXr]
      cases out with
      | failure e =>
        dsimp only at hroom2
        split at hroom2
        · rw [aget_aset_self] at hroom2
          injection hroom2 with h3
          left
          rw [← h3]
          exact hDX
        · rw [aget_aset_self] at hroom2
          injection hroom2 with h3
          right
          rw [← h3]
          show roomD.gameData.turnCount + 1 = room.gameData.turnCount + 1
          rw [hDX]
      | ok ab dmg =>
        dsimp only at hroom2
        split at hroom2
        · rw [aget_aset_self] at hroom2
          injection hroom2 with h3
          left
          rw [← h3]
          exact hDX
        · rw [aget_aset_self] at hroom2
          injection hroom2 with h3
          right
          rw [← h3]
          show roomD.gameData.turnCount + 1 = room.gameData.turnCount + 1
          rw [hDX]
  · cases a with
    | unknown t =>
      dsimp only at hroom2
      exact base hroom2
    | surrender =>
      dsimp only [processSurrender] at hroom2
      rw [if_pos (Or.inl (by exact le_refl 0))] at hroom2
      rw [aget_aset_ne _ _ _ _ hr] at hroom2
      exact base hroom2
    | ability aid =>
      dsimp only at hroom2
      rcases hq : processAbilityUse acting target aid roomX with ⟨a2, t2, roomD, out⟩
      rw [hq] at hroom2
      cases out with
      | failure e =>
        dsimp only at hroom2
        split at hroom2 <;>
          · rw [aget_aset_ne _ _ _ _ hr] at hroom2
            exact base hroom2
      | ok ab dmg =>
        dsimp only at hroom2
        split at hroom2 <;>
          · rw [aget_aset_ne _ _ _ _ hr] at hroom2
            exact base hroom2

theorem start_spec (st : GameState) (now : Nat) (rid : String) (room2 : Room)
    (h : (startGame st now rid).2 = StartResult.ok room2) :
    room2.gameData.currentTurn = some room2.hostId ∧
    room2.gameData.turnCount = 1 ∧
    aget (startGame st now rid).1.rooms rid = some room2 := by
  unfold startGame at h ⊢
  cases hroom : aget st.rooms rid with
  | none =>
    rw [hroom] at h
    exact StartResult.noConfusion h
  | some room =>
  rw [hroom] at h
  dsimp only at h ⊢
  by_cases hst : room.status ≠ RoomStatus.ready
  · rw [if_pos hst] at h
    exact StartResult.noConfusion h
  rw [if_neg hst] at h ⊢
  by_cases hlen : room.players.length ≠ 2
  · rw [if_pos hlen] at h
    exact StartResult.noConfusion h
  rw [if_neg hlen] at h ⊢
  dsimp only at h ⊢
  injection h with h3
  subst h3
  exact ⟨rfl, rfl, aget_aset_self _ _ _⟩

/-- C2: turn ownership starts with the host at `turnCount` 1, strictly
alternates between the two occupants on every successful non-terminal
action with `turnCount` bumped by exactly 1, stays put on a terminal
action, and no call can change any room's `turnCount` by any other
amount. -/
theorem turn_alternation :
    (∀ (st : GameState) (now : Nat) (rid : String) (room2 : Room),
      (startGame st now rid).2 = StartResult.ok room2 →
        room2.gameData.currentTurn = some room2.hostId ∧
        room2.gameData.turnCount = 1 ∧
        aget (startGame st now rid).1.rooms rid = some room2) ∧
    (∀ (st : GameState) (now : Nat) (p : String) (a : GAction) (rid : String)
        (room : Room) (h g : String),
      aget st.playerToRoom p = some rid →
      aget st.rooms rid = some room →
      room.status = RoomStatus.inProgress →
      room.players = [h, g] → room.hostId = h → room.guestId = some g → h ≠ g →
      room.gameData.currentTurn = some p →
      (processGameAction st now p a).2.success = true →
      ∃ room2, aget (processGameAction st now p a).1.rooms rid = some room2 ∧
        ((room2.status = RoomStatus.completed ∧
          room2.gameData.turnCount = room.gameData.turnCount) ∨
         (room2.status = RoomStatus.inProgress ∧
          room2.gameData.turnCount = room.gameData.turnCount + 1 ∧
          room2.gameData.currentTurn = some (if p = h then g else h) ∧
          room2.gameData.currentTurn ≠ some p))) ∧
    (∀ (st : GameState) (now : Nat) (p : String) (a : GAction) (r : String)
        (room room2 : Room),
      aget st.rooms r = some room →
      aget (processGameAction st now p a).1.rooms r = some room2 →
      room2.gameData.turnCount = room.gameData.turnCount ∨
      room2.gameData.turnCount = room.gameData.turnCount + 1) :=
  ⟨start_spec,
   fun st now p a rid room h g h1 h2 h3 h4 h5 h6 h7 h8 h9 =>
     act_success_spec st now p a rid room h g h1 h2 h3 h4 h5 h6 h7 h8 h9,
   fun st now p a r room room2 h1 h2 =>
     act_turnCount_delta st now p a r room room2 h1 h2⟩

def stBeforeStart : GameState := execList emptyState (setupOps.take 8)

def startedRoomW : Room :=
  match (startGame stBeforeStart 9 "A").2 with
  | StartResult.ok rm => rm
  | StartResult.failure _ => roomW

def roomAW : Room :=
  match aget stReady.rooms "A" with
  | some rm => rm
  | none => roomW

/-- C2 witness: the three parts applied on the Scenario A run — the started
room has the host to move at turnCount 1, and the host's first ability
flips the turn to the guest at turnCount 2. -/
theorem turn_alternation_witness :
    ((startGame stBeforeStart 9 "A").2 = StartResult.ok startedRoomW ∧
      startedRoomW.gameData.currentTurn = some startedRoomW.hostId ∧
      startedRoomW.gameData.turnCount = 1) ∧
    (∃ room2,
      aget (processGameAction stReady 10 "h" (GAction.ability "fire")).1.rooms "A" =
        some room2 ∧
      ((room2.status = RoomStatus.completed ∧
        room2.gameData.turnCount = roomAW.gameData.turnCount) ∨
       (room2.status = RoomStatus.inProgress ∧
        room2.gameData.turnCount = roomAW.gameData.turnCount + 1 ∧
        room2.gameData.currentTurn = some (if "h" = "h" then "g" else "h") ∧
        room2.gameData.currentTurn ≠ some "h"))) := by
  refine ⟨⟨by decide, ?_⟩, ?_⟩
  · have h := turn_alternation.1 stBeforeStart 9 "A" startedRoomW (by decide)
    exact ⟨h.1, h.2.1⟩
  · exact turn_alternation.2.1 stReady 10 "h" (GAction.ability "fire") "A" roomAW "h" "g"
      (by decide) (by decide) (by decide) (by decide) (by decide) (by decide)
      (by decide) (by decide) (by decide)

/-- C3 (amended): starting from the empty registry, along every run of
registry operations respecting the call discipline — effective `createRoom`
codes never collide with a live room, `removePlayerFromRoom` targets the
caller's indexed room (or a room-less caller), `addPlayerToRoom` is never a
re-entry into the player's current room — the reverse index maps `p` to `r`
iff room `r` is live and `p` is on its roster. -/
theorem reverse_index_consistent (ops : List Op)
    (hseq : DisciplinedSeq emptyState ops) :
    IndexConsistent (execList emptyState ops) :=
  (run_inv ops emptyState inv_empty hseq).1

/-- C3 witness: the Scenario A run is disciplined and ends index-consistent. -/
theorem reverse_index_consistent_witness :
    DisciplinedSeq emptyState setupOps ∧
    IndexConsistent (execList emptyState setupOps) :=
  ⟨by decide, reverse_index_consistent setupOps (by decide)⟩

/-- C3 counterexample: `createRoom` with a caller-supplied `roomId` that
collides with a live room silently overwrites it; the old host's index
entry still points at the code but the roster no longer contains them. -/
def c3ops : List Op :=
  [ Op.register 1 "h1" none,
    Op.create 2 "h1" { roomId := some "R", name := none, isPrivate := false } "G1AAAA",
    Op.register 3 "h2" none,
    Op.create 4 "h2" { roomId := some "R", name := none, isPrivate := false } "G2AAAA" ]

theorem reverse_index_broken_by_code_collision :
    ¬ IndexConsistent (execList emptyState c3ops) := by
  intro hic
  rcases (hic "h1" "R").mp (by decide) with ⟨room, hroom, hmem⟩
  have hc : (aget (execList emptyState c3ops).rooms "R").map Room.players =
      some ["h2"] := by decide
  rw [hroom] at hc
  simp only [Option.map_some'] at hc
  injection hc with hc2
  rw [hc2] at hmem
  exact absurd hmem (by decide)

/-- C4 (amended): under the same call discipline, every live room's roster
has one or two distinct occupants, `hostId` is `roster[0]`, `guestId` is
non-null iff the roster has two occupants, and then names the non-host. -/
theorem roster_shape (ops : List Op) (hseq : DisciplinedSeq emptyState ops) :
    ∀ r room, aget (execList emptyState ops).rooms r = some room →
      room.players ≠ [] ∧
      room.players.length ≤ 2 ∧
      room.players.head? = some room.hostId ∧
      (room.guestId ≠ none ↔ room.players.length = 2) ∧
      (∀ g2, room.guestId = some g2 → g2 ∈ room.players ∧ g2 ≠ room.hostId) := by
  intro r room hroom
  have hri := (run_inv ops emptyState inv_empty hseq).2.1 r room hroom
  rcases hri.2 with ⟨a, h1, h2, h3⟩ | ⟨a, b, h1, h2, h3, h4⟩
  · refine ⟨by simp [h1], by simp [h1], by rw [h1, h2]; rfl, ?_, ?_⟩
    · rw [h3, h1]
      simp
    · intro g2 hg2
      rw [h3] at hg2
      exact Option.noConfusion hg2
  · refine ⟨by simp [h1], by simp [h1], by rw [h1, h2]; rfl, ?_, ?_⟩
    · rw [h3, h1]
      simp
    · intro g2 hg2
      rw [h3] at hg2
      injection hg2 with hg3
      subst hg3
      exact ⟨by rw [h1]; simp, by rw [h2]; exact fun hc => h4 hc.symm⟩

/-- C4 witness: the Scenario A room satisfies every roster-shape clause. -/
theorem roster_shape_witness :
    DisciplinedSeq emptyState setupOps ∧
    (roomAW.players ≠ [] ∧
     roomAW.players.length ≤ 2 ∧
     roomAW.players.head? = some roomAW.hostId ∧
     (roomAW.guestId ≠ none ↔ roomAW.players.length = 2) ∧
     (∀ g2, roomAW.guestId = some g2 → g2 ∈ roomAW.players ∧ g2 ≠ roomAW.hostId)) :=
  ⟨by decide, roster_shape setupOps (by decide) "A" roomAW (by decide)⟩

/-- C4 counterexample: a `removePlayerFromRoom` aimed at a room the player
is not in deletes their index entry while they still host another room;
re-joining their own room then yields roster `[h, h]` with
`guestId = hostId` — the guest slot no longer names a non-host occupant. -/
def c4ops : List Op :=
  [ Op.register 1 "h" none,
    Op.register 2 "q" none,
    Op.create 3 "h" { roomId := some "A", name := none, isPrivate := false } "G1AAAA",
    Op.create 4 "q" { roomId := some "B", name := none, isPrivate := false } "G2AAAA",
    Op.remove 5 "h" "B",
    Op.add 6 "h" "A" ]

theorem roster_shape_broken_by_mismatched_remove :
    (aget (execList emptyState c4ops).rooms "A").map
      (fun rm => (rm.players, rm.hostId, rm.guestId)) =
      some (["h", "h"], "h", some "h") := by decide

/-- C7 (amended): a `processGameAction` by a player indexed to a completed
room always fails with the not-in-progress reason and leaves the state
untouched; and — as long as `createRoom` never receives a code colliding
with a live room — no single operation moves the room at a code out of
`completed`: it survives still completed or is deleted outright.  (An
unrestricted `createRoom` whose caller-supplied code collides with a live
completed room replaces it wholesale by a fresh `waiting` room.) -/
theorem completed_rooms_stay_completed :
    (∀ (st : GameState) (now : Nat) (p : String) (a : GAction) (r : String) (room : Room),
      aget st.playerToRoom p = some r →
      aget st.rooms r = some room →
      room.status = RoomStatus.completed →
      processGameAction st now p a = (st, actionFail "Game is not in progress")) ∧
    (∀ (st : GameState) (op : Op) (r : String) (room : Room),
      aget st.rooms r = some room →
      room.status = RoomStatus.completed →
      CreateFresh st op →
      NodupState st →
      aget (Op.exec st op).rooms r = none ∨
      ∃ room', aget (Op.exec st op).rooms r = some room' ∧
        room'.status = RoomStatus.completed) := by
  constructor
  · intro st now p a r room hidx hroom hc
    unfold processGameAction
    rw [hidx]
    dsimp only
    rw [hroom]
    dsimp only
    rw [if_pos (by rw [hc]; exact fun hcon => RoomStatus.noConfusion hcon)]
  · intro st op r room hroom hc hF hND
    exact op_preserves_completed st op hroom hc hF hND

def c7ops : List Op := setupOps ++ [Op.act 10 "h" GAction.surrender]

def c7preState : GameState := execList emptyState c7ops

def roomC7W : Room :=
  match aget c7preState.rooms "A" with
  | some rm => rm
  | none => roomW

/-- C7 witness: after the host surrenders, a further action by the host
fails `Game is not in progress` with the state unchanged, and a harmless
operation (a ready toggle) leaves the room completed. -/
theorem completed_rooms_stay_completed_witness :
    (processGameAction c7preState 12 "h" GAction.surrender =
      (c7preState, actionFail "Game is not in progress")) ∧
    (aget (Op.exec c7preState (Op.setReady 13 "h" true)).rooms "A" = none ∨
     ∃ room', aget (Op.exec c7preState (Op.setReady 13 "h" true)).rooms "A" = some room' ∧
       room'.status = RoomStatus.completed) :=
  ⟨completed_rooms_stay_completed.1 c7preState 12 "h" GAction.surrender "A" roomC7W
     (by decide) (by decide) (by decide),
   completed_rooms_stay_completed.2 c7preState (Op.setReady 13 "h" true) "A" roomC7W
     (by decide) (by decide) (by decide) (by decide)⟩

/-- C7 counterexample: with a caller-supplied room code colliding with a
live completed room, `createRoom` moves the code from `completed` straight
back to `waiting`. -/
theorem completed_room_resurrected_by_code_collision :
    (aget c7preState.rooms "A").map Room.status = some RoomStatus.completed ∧
    (aget (Op.exec c7preState
        (Op.create 11 "g" { roomId := some "A", name := none, isPrivate := false }
          "G9AAAA")).rooms "A").map Room.status = some RoomStatus.waiting :=
  ⟨by decide, by decide⟩

/-- C8: a sweep removes exactly the rooms strictly older than
`now − roomTimeout` (kept at exactly the timeout), clears evicted
occupants' index entries without touching surviving rooms at all, and
removes exactly the players strictly older than `now − playerTimeout` that
have no reverse-index entry after the room phase — a player still indexed
to a room is never removed. -/
theorem cleanup_characterization (st : GameState) (now rT pT : Nat)
    (hnd : NodupState st) :
    (∀ r room, aget st.rooms r = some room →
      aget (cleanupInactive st now rT pT).rooms r =
        if now - room.lastActivity > rT then none else some room) ∧
    (∀ q,
      ((∃ r room, aget st.rooms r = some room ∧ now - room.lastActivity > rT ∧
          q ∈ room.players) →
        aget (cleanupInactive st now rT pT).playerToRoom q = none) ∧
      ((¬ ∃ r room, aget st.rooms r = some room ∧ now - room.lastActivity > rT ∧
          q ∈ room.players) →
        aget (cleanupInactive st now rT pT).playerToRoom q = aget st.playerToRoom q)) ∧
    (∀ q pl, aget st.players q = some pl →
      aget (cleanupInactive st now rT pT).players q =
        if now - pl.lastActive > pT ∧
            aget (cleanupInactive st now rT pT).playerToRoom q = none
        then none else some pl) ∧
    (∀ q, aget (cleanupInactive st now rT pT).playerToRoom q ≠ none →
      aget (cleanupInactive st now rT pT).players q = aget st.players q) := by
  have hiff : ∀ q, (∃ e ∈ st.rooms.filter (fun e => now - e.2.lastActivity > rT),
      q ∈ e.2.players) ↔
      (∃ r room, aget st.rooms r = some room ∧ now - room.lastActivity > rT ∧
        q ∈ room.players) := by
    intro q
    constructor
    · rintro ⟨e, hef, hqe⟩
      have h2 := List.mem_filter.mp hef
      exact ⟨e.1, e.2, mem_aget hnd.1 h2.1, by simpa using h2.2, hqe⟩
    · rintro ⟨r, room, hroom, hev, hmem⟩
      exact ⟨(r, room), List.mem_filter.mpr ⟨aget_mem hroom, by simpa using hev⟩, hmem⟩
  refine ⟨?_, ?_, ?_, ?_⟩
  · intro r room hroom
    show aget (st.rooms.filter (fun e => ¬ now - e.2.lastActivity > rT)) r = _
    rw [aget_filter hnd.1, hroom]
    by_cases h : now - room.lastActivity > rT <;> simp [h]
  · intro q
    constructor
    · intro hex
      show aget ((st.rooms.filter (fun e => now - e.2.lastActivity > rT)).foldl
        (fun idx e => e.2.players.foldl (fun i pid => adel i pid) idx)
        st.playerToRoom) q = none
      rw [aget_foldl_rooms_adel, if_pos ((hiff q).mpr hex)]
    · intro hnex
      show aget ((st.rooms.filter (fun e => now - e.2.lastActivity > rT)).foldl
        (fun idx e => e.2.players.foldl (fun i pid => adel i pid) idx)
        st.playerToRoom) q = aget st.playerToRoom q
      rw [aget_foldl_rooms_adel, if_neg (fun hx => hnex ((hiff q).mp hx))]
  · intro q pl hpl
    show aget (st.players.filter _) q = _
    rw [aget_filter hnd.2.1, hpl]
    by_cases hcond : now - pl.lastActive > pT ∧
        aget (cleanupInactive st now rT pT).playerToRoom q = none
    · rw [if_pos hcond]
      simp only [decide_eq_true_eq]
      rw [if_neg]
      intro hkeep
      exact hkeep ⟨hcond.1, hcond.2⟩
    · rw [if_neg hcond]
      simp only [decide_eq_true_eq]
      rw [if_pos]
      intro hdel
      exact hcond ⟨hdel.1, hdel.2⟩
  · intro q hq
    cases hpl : aget st.players q with
    | none =>
      show aget (st.players.filter _) q = _
      rw [aget_filter hnd.2.1, hpl]
    | some pl =>
      show aget (st.players.filter _) q = _
      rw [aget_filter hnd.2.1, hpl]
      simp only [decide_eq_true_eq]
      rw [if_pos]
      intro hdel
      exact hq hdel.2

def c8now : Nat := 60 * 60000
def c8rT : Nat := 30 * 60000
def c8pT : Nat := 50 * 60000

def c8room (last : Nat) (occupant : String) : Room :=
  { id := "X", name := "X", hostId := occupant, guestId := none,
    status := RoomStatus.waiting, isPrivate := false, maxPlayers := 2,
    players := [occupant], spectators := [],
    gameData := { turnCount := 0, currentTurn := none, battleLog := [],
                  startTime := none, endTime := none, winner := none },
    createdAt := 0, lastActivity := last }

def c8player (last : Nat) : Player :=
  { id := "p", name := "p", isConnected := true, character := none,
    isReady := false, health := 0, maxHealth := 0, mana := 0, maxMana := 0,
    lastActive := last }

/-- 31 minutes stale (evicted), 29 minutes (kept), exactly 30 minutes
(kept: the comparison is strict). -/
def c8staleRoom : Room := c8room (29 * 60000) "a"
def c8freshRoom : Room := c8room (31 * 60000) "b"
def c8edgeRoom : Room := c8room (30 * 60000) "e"

def c8state : GameState :=
  { rooms := [("STALE", c8staleRoom), ("FRESH", c8freshRoom), ("EDGE", c8edgeRoom)],
    players := [("a", c8player 0), ("b", c8player 0), ("c", c8player 0),
                ("d", c8player c8now), ("e", c8player 0)],
    playerToRoom := [("a", "STALE"), ("b", "FRESH"), ("e", "EDGE")] }

/-- C8 witness: on the concrete Scenario E state the 31-minute-old room is
evicted (its occupant's index entry cleared), the 29-minute-old and
exactly-30-minute-old rooms survive untouched, the idle room-less player is
removed, and the indexed player survives despite being idle. -/
theorem cleanup_characterization_witness :
    NodupState c8state ∧
    aget (cleanupInactive c8state c8now c8rT c8pT).rooms "STALE" = none ∧
    aget (cleanupInactive c8state c8now c8rT c8pT).rooms "FRESH" = some c8freshRoom ∧
    aget (cleanupInactive c8state c8now c8rT c8pT).rooms "EDGE" = some c8edgeRoom ∧
    aget (cleanupInactive c8state c8now c8rT c8pT).playerToRoom "a" = none ∧
    aget (cleanupInactive c8state c8now c8rT c8pT).players "c" = none ∧
    aget (cleanupInactive c8state c8now c8rT c8pT).players "b" = aget c8state.players "b" := by
  have h := cleanup_characterization c8state c8now c8rT c8pT (by decide)
  refine ⟨by decide, ?_, ?_, ?_, ?_, ?_, ?_⟩
  · rw [h.1 "STALE" c8staleRoom (by decide)]
    decide
  · rw [h.1 "FRESH" c8freshRoom (by decide)]
    decide
  · rw [h.1 "EDGE" c8edgeRoom (by decide)]
    decide
  · exact (h.2.1 "a").1 ⟨"STALE", c8staleRoom, by decide, by decide, by decide⟩
  · rw [h.2.2.1 "c" (c8player 0) (by decide)]
    rw [if_pos ⟨by decide, by decide⟩]
  · exact h.2.2.2 "b" (by decide)
